import Mathlib

/-!
Shallow embedding of the PC-port texture pool from
src/game/graphics/texture/TexturePool.h, together with the coordinator
operations that the header declares.  The structures and the inline
members (lookup, lookup_gpu_texture, segment_of_mip,
try_copy_texture_description, and the static layout asserts) are
translated from the header.  The bodies of the coordinator operations
(give_texture, give_texture_and_load_to_vram, unload_texture,
handle_upload_now, relocate, refresh_links, move_existing_to_vram) are
only declared in the header; their behaviour is modelled from the
specification, marked by doc comments starting with "Modelled from the
spec".
-/

namespace TexPool

/-- Modelled from the spec: the process-wide placeholder texture handle
(m_placeholder_texture_id), initialized once at startup and never
mutated.  Its concrete value is opaque; it is modelled as 0. -/
def placeholderId : Nat := 0

/-- From the source: TextureData, the lowest level reference to texture
data.  The raw pixel pointer is owned by the loader and opaque to the
pool, so only the GL handle field is modelled. -/
structure TextureData where
  gl : Nat
deriving DecidableEq, Repr

/-- From the source: GpuTexture, one unique in-game texture identity.
The combined key (page name + texture name) is modelled as the single
field name.  The stored is_placeholder flag is redundant with the
instance list: per the spec an identity is a placeholder exactly when it
has zero loaded instances, so the flag is represented by
gpu_textures = []. -/
structure GpuTexture where
  name : String
  gpu_textures : List TextureData
  slots : List Nat
  mt4hh_slots : List Nat
  combo_id : Nat
  w : Nat
  h : Nat
  is_common : Bool
deriving DecidableEq, Repr

/-- From the source: TextureVRAMReference, one VRAM slot.  The GpuTexture
pointer is modelled as an index into the pool's registry (spec design
note: identities are never erased, so the back-reference can be a stable
handle into an append-only arena); none means the game never wrote
here. -/
structure TextureVRAMReference where
  gpu_texture : Nat
  source : Option Nat
deriving DecidableEq, Repr

/-- From the source: the default-constructed VRAM slot, gpu_texture = -1
as u64 and a null source. -/
def initRef : TextureVRAMReference := ⟨2 ^ 64 - 1, none⟩

/-- From the source: Mt4hhTexture, one entry of the paired-format side
table. -/
structure Mt4hhTexture where
  ref : TextureVRAMReference
  slot : Nat
deriving DecidableEq, Repr

/-- From the source: TextureInput, a texture provided by the loader.
The raw pixel pointer is opaque and omitted; the combined name is one
field. -/
structure TextureInput where
  name : String
  gpu_texture : Nat
  common : Bool
  combo_id : Nat
  w : Nat
  h : Nat
deriving DecidableEq, Repr

/-- From the source: the VRAM table has 1024*1024*4/256 slots (one per
256-byte block). -/
def TEXTURE_TABLE_COUNT : Nat := 1024 * 1024 * 4 / 256

/-- The pool state: the fixed VRAM slot array (modelled as a total
function from block address to slot), the paired-format side table and
the identity registry.  The registry is modelled as an append-only list
indexed by position (spec: identities are never erased). -/
structure TexturePool where
  m_textures : Nat → TextureVRAMReference
  m_mt4hh_textures : List Mt4hhTexture
  m_loaded_textures : List GpuTexture

/-- From the source: the freshly constructed pool; every slot is
default-constructed, no identities, no paired entries. -/
def initPool : TexturePool := ⟨fun _ => initRef, [], []⟩

/-- Out-of-range default used by the total registry indexing function. -/
def dummyTex : GpuTexture := ⟨"", [], [], [], 0, 0, 0, false⟩

/-- Total indexing into the identity registry. -/
def nthTex : List GpuTexture → Nat → GpuTexture
  | [], _ => dummyTex
  | t :: _, 0 => t
  | _ :: l, n + 1 => nthTex l n

/-- Pointwise modification of one registry entry. -/
def modifyAt {α : Type} : List α → Nat → (α → α) → List α
  | [], _, _ => []
  | a :: l, 0, f => f a :: l
  | a :: l, n + 1, f => a :: modifyAt l n f

/-- Index of the first registry entry with the given combined name
(m_loaded_textures.find by key). -/
def findIdxFrom (n : String) : List GpuTexture → Option Nat
  | [] => none
  | t :: l => if t.name = n then some 0 else (findIdxFrom n l).map (fun k => k + 1)

def findName (p : TexturePool) (n : String) : Option Nat :=
  findIdxFrom n p.m_loaded_textures

def texAt (p : TexturePool) (i : Nat) : GpuTexture := nthTex p.m_loaded_textures i

/-- Modelled from the spec: the canonical handle of an identity is the
handle of instance 0 if any instance remains, else the global
placeholder handle. -/
def canonicalHandle (t : GpuTexture) : Nat :=
  match t.gpu_textures with
  | [] => placeholderId
  | d :: _ => d.gl

def modifyReg (p : TexturePool) (i : Nat) (f : GpuTexture → GpuTexture) : TexturePool :=
  { p with m_loaded_textures := modifyAt p.m_loaded_textures i f }

/-- Modelled from the spec: writing one VRAM slot to point at identity i
with resolved handle hdl.  The slot lists of the identities track "the
VRAM addresses currently pointing at" each identity, so redirecting a
slot removes it from the previous owner's list (GpuTexture::remove_slot)
and records it on the new owner (GpuTexture::add_slot), then stores the
(handle, back-reference) pair in the slot. -/
def writeSlot (p : TexturePool) (addr i hdl : Nat) : TexturePool :=
  let cleared := p.m_loaded_textures.map fun t =>
    { t with slots := t.slots.filter (fun s => s != addr) }
  { p with
    m_loaded_textures := modifyAt cleared i (fun t => { t with slots := t.slots ++ [addr] }),
    m_textures := fun a => if a = addr then ⟨hdl, some i⟩ else p.m_textures a }

/-- Modelled from the spec: refresh_links, the relink algorithm.  The new
canonical handle of identity i is written into the handle field of every
slot recorded on the identity (back-references are untouched), and into
every paired side-table entry whose slot is recorded on the identity and
whose back-reference is this identity. -/
def refresh_links (p : TexturePool) (i : Nat) : TexturePool :=
  let t := texAt p i
  let hdl := canonicalHandle t
  { p with
    m_textures := fun a =>
      if a ∈ t.slots then { gpu_texture := hdl, source := (p.m_textures a).source }
      else p.m_textures a,
    m_mt4hh_textures := p.m_mt4hh_textures.map fun e =>
      if e.slot ∈ t.mt4hh_slots ∧ e.ref.source = some i then
        { e with ref := { e.ref with gpu_texture := hdl } }
      else e }

/-- Modelled from the spec: get-or-create of an identity by combined
name; when the name is absent the supplied fresh record is appended to
the registry.  Returns the state and the identity's index. -/
def getOrCreateTex (p : TexturePool) (t0 : GpuTexture) : TexturePool × Nat :=
  match findName p t0.name with
  | some i => (p, i)
  | none => ({ p with m_loaded_textures := p.m_loaded_textures ++ [t0] },
             p.m_loaded_textures.length)

/-- The fresh identity created by register for a new name: static fields
populated from the loader input, no instances yet. -/
def inputTexture (inp : TextureInput) : GpuTexture :=
  { name := inp.name, gpu_textures := [], slots := [], mt4hh_slots := [],
    combo_id := inp.combo_id, w := inp.w, h := inp.h, is_common := inp.common }

/-- Modelled from the spec: give_texture (register).  Get-or-create the
identity (populating static fields only on creation), append a loaded
instance, and relink (attach triggers relink so the identity is promoted
out of placeholder state).  Returns the state and the identity index. -/
def give_texture_core (p : TexturePool) (inp : TextureInput) : TexturePool × Nat :=
  let pr := getOrCreateTex p (inputTexture inp)
  (refresh_links
     (modifyReg pr.1 pr.2 fun t =>
       { t with gpu_textures := t.gpu_textures ++ [⟨inp.gpu_texture⟩] })
     pr.2,
   pr.2)

def give_texture (p : TexturePool) (inp : TextureInput) : TexturePool :=
  (give_texture_core p inp).1

/-- Modelled from the spec: give_texture_and_load_to_vram
(register_and_bind) = register, then write the slot to point at the
identity's canonical instance. -/
def give_texture_and_load_to_vram (p : TexturePool) (inp : TextureInput) (addr : Nat) :
    TexturePool :=
  let pr := give_texture_core p inp
  writeSlot pr.1 addr pr.2 (canonicalHandle (texAt pr.1 pr.2))

/-- Remove the first loaded instance whose handle matches. -/
def removeFirstHandle (id : Nat) : List TextureData → List TextureData
  | [] => []
  | d :: l => if d.gl = id then l else d :: removeFirstHandle id l

/-- Modelled from the spec: unload_texture (detach).  Remove the first
instance matching the handle; a missing name or a non-matching handle is
a no-op; an actual removal triggers relink (which falls back to the
placeholder handle when the list emptied).  The identity itself is never
erased. -/
def unload_texture (p : TexturePool) (nm : String) (id : Nat) : TexturePool :=
  match findName p nm with
  | none => p
  | some i =>
      if (texAt p i).gpu_textures.any (fun d => d.gl == id) then
        refresh_links
          (modifyReg p i fun t => { t with gpu_textures := removeFirstHandle id t.gpu_textures })
          i
      else p

/-- Modelled from the spec: the placeholder-only identity created when an
upload references a name the loader has not supplied yet.  Static fields
take the default values of the source struct (combo_id = -1 as u32). -/
def placeholderTexture (nm : String) : GpuTexture :=
  { name := nm, gpu_textures := [], slots := [], mt4hh_slots := [],
    combo_id := 2 ^ 32 - 1, w := 0, h := 0, is_common := false }

/-- Modelled from the spec: record one paired-format side-table entry for
a destination address (the descriptor also occupies the regular slot;
the side table is additional). -/
def addPaired (p : TexturePool) (addr i hdl : Nat) : TexturePool :=
  { modifyReg p i (fun t => { t with mt4hh_slots := t.mt4hh_slots ++ [addr] }) with
    m_mt4hh_textures := p.m_mt4hh_textures ++ [⟨⟨hdl, some i⟩, addr⟩] }

/-- Write the resolved handle of identity i into one destination slot,
plus the paired side table when the descriptor is paired-format. -/
def uploadStep (i : Nat) (paired : Bool) (q : TexturePool) (a : Nat) : TexturePool :=
  let q1 := writeSlot q a i (canonicalHandle (texAt q i))
  if paired then addPaired q1 a i (canonicalHandle (texAt q1 i)) else q1

/-- Write the resolved handle of identity i into every destination slot
of one decoded descriptor. -/
def writeSlots (i : Nat) (paired : Bool) : List Nat → TexturePool → TexturePool
  | [], q => q
  | a :: rest, q => writeSlots i paired rest (uploadStep i paired q a)

/-- Modelled from the spec: the per-descriptor body of simulate_upload
(handle_upload_now).  The target identity is resolved by get-or-create
(creating a placeholder-only identity when the loader has not supplied
the name), then the resolved handle and back-reference are written into
every destination slot computed from the descriptor's segment/mip
table. -/
def upload_one_descriptor (p : TexturePool) (nm : String) (dests : List Nat)
    (paired : Bool) : TexturePool :=
  let pr := getOrCreateTex p (placeholderTexture nm)
  writeSlots pr.2 paired dests pr.1

/-- Block-by-block body of relocate; reads come from the pre-call state
p, writes accumulate in q. -/
def relocate_aux (p : TexturePool) (dst src : Nat) : Nat → TexturePool → TexturePool
  | 0, q => q
  | n + 1, q =>
      let q1 := relocate_aux p dst src n q
      match (p.m_textures (src + n)).source with
      | some i => writeSlot q1 (dst + n) i (p.m_textures (src + n)).gpu_texture
      | none => q1

/-- Modelled from the spec: relocate (simulate_copy) copies the (handle,
identity back-reference) pair of each source block to the corresponding
destination block; the number of blocks is derived from the format by
the caller and passed here as nblocks.  A block whose source slot is
untouched is skipped, as required by the spec's slot-monotonicity
invariant (a written slot is never set back to untouched). -/
def relocate (p : TexturePool) (dst src nblocks : Nat) : TexturePool :=
  relocate_aux p dst src nblocks p

/-- Modelled from the spec: move_existing_to_vram (bind_existing) forces
a slot to resolve to an already-registered identity's canonical
instance; an unknown identity is a no-op. -/
def move_existing_to_vram (p : TexturePool) (nm : String) (addr : Nat) : TexturePool :=
  match findName p nm with
  | some i => writeSlot p addr i (canonicalHandle (texAt p i))
  | none => p

/-- From the source: TexturePool::lookup with EXTRA_TEX_DEBUG = false
(the default/production configuration): return the slot's stored handle
when the source back-reference is set, else an absent result.  No other
work is performed. -/
def lookup (p : TexturePool) (addr : Nat) : Option Nat :=
  match (p.m_textures addr).source with
  | some _ => some (p.m_textures addr).gpu_texture
  | none => none

/-- From the source: TexturePool::lookup_gpu_texture returns the slot's
identity back-reference (null when the game never wrote here). -/
def lookup_gpu_texture (p : TexturePool) (addr : Nat) : Option Nat :=
  (p.m_textures addr).source

/-- Modelled from the spec: lookup_mt4hh resolves the paired-format side
table: the handle of the first entry recorded for the address, or
none. -/
def lookup_mt4hh (p : TexturePool) (addr : Nat) : Option Nat :=
  (p.m_mt4hh_textures.find? (fun e => e.slot == addr)).map (fun e => e.ref.gpu_texture)

/-- One coordinator mutation, as enumerated by the spec's public
surface. -/
inductive Op where
  | register (inp : TextureInput)
  | registerAndBind (inp : TextureInput) (addr : Nat)
  | detach (nm : String) (id : Nat)
  | upload (nm : String) (dests : List Nat) (paired : Bool)
  | copy (dst src nblocks : Nat)
  | bindExisting (nm : String) (addr : Nat)

def step (p : TexturePool) : Op → TexturePool
  | .register inp => give_texture p inp
  | .registerAndBind inp addr => give_texture_and_load_to_vram p inp addr
  | .detach nm id => unload_texture p nm id
  | .upload nm dests paired => upload_one_descriptor p nm dests paired
  | .copy dst src n => relocate p dst src n
  | .bindExisting nm addr => move_existing_to_vram p nm addr

def run (p : TexturePool) (ops : List Op) : TexturePool := ops.foldl step p

/-- Specification predicate for C4: whether one operation, started in
state p, writes the given slot address (assigns it a back-reference). -/
def writesToB (p : TexturePool) (op : Op) (a : Nat) : Bool :=
  match op with
  | .register _ => false
  | .registerAndBind _ addr => a == addr
  | .detach _ _ => false
  | .upload _ dests _ => dests.contains a
  | .copy dst src n =>
      (List.range n).any fun k => a == dst + k && ((p.m_textures (src + k)).source).isSome
  | .bindExisting nm addr => a == addr && (findName p nm).isSome

/-- Specification predicate for C4: whether any operation of the
sequence writes the given slot address. -/
def everWrittenB : TexturePool → List Op → Nat → Bool
  | _, [], _ => false
  | p, op :: ops, a => writesToB p op a || everWrittenB (step p op) ops a

end TexPool

namespace TexLayout

/-- Round an offset up to a multiple of the alignment, as the C ABI
does between struct fields. -/
def alignUp (n a : Nat) : Nat := (n + a - 1) / a * a

/-- One struct field: its byte size and alignment requirement. -/
structure CField where
  size : Nat
  align : Nat

/-- Byte offsets the C ABI assigns to the fields, starting at off. -/
def layoutOffsets : List CField → Nat → List Nat
  | [], _ => []
  | f :: fs, off =>
      let o := alignUp off f.align
      o :: layoutOffsets fs (o + f.size)

/-- End offset after laying out the fields starting at off. -/
def layoutEnd : List CField → Nat → Nat
  | [], off => off
  | f :: fs, off => layoutEnd fs (alignUp off f.align + f.size)

def maxAlignOf (fs : List CField) : Nat := fs.foldl (fun m f => max m f.align) 1

/-- Total struct size: end offset padded to the struct alignment. -/
def structSize (fs : List CField) : Nat := alignUp (layoutEnd fs 0) (maxAlignOf fs)

/-- From the source: the fields of GoalTexture in declaration order:
s16 w, s16 h, u8 num_mips, u8 tex1_control, u8 psm, u8 mip_shift,
u16 clutpsm (index 6), u16 dest[7], u16 clut_dest (index 8),
u8 width[7], u32 name_ptr, u32 size, float uv_dist, u32 masks[3]. -/
def goalTextureFields : List CField :=
  [⟨2, 2⟩, ⟨2, 2⟩, ⟨1, 1⟩, ⟨1, 1⟩, ⟨1, 1⟩, ⟨1, 1⟩, ⟨2, 2⟩, ⟨14, 2⟩,
   ⟨2, 2⟩, ⟨7, 1⟩, ⟨4, 4⟩, ⟨4, 4⟩, ⟨4, 4⟩, ⟨12, 4⟩]

/-- From the source: the fields of GoalTexturePage in declaration order:
u32 file_info_ptr, u32 name_ptr, u32 id, s32 length, u32 mip0_size,
u32 size, Seg segment[3] (each Seg is three u32), u32 pad[16]. -/
def goalTexturePageFields : List CField :=
  [⟨4, 4⟩, ⟨4, 4⟩, ⟨4, 4⟩, ⟨4, 4⟩, ⟨4, 4⟩, ⟨4, 4⟩, ⟨36, 4⟩, ⟨64, 4⟩]

def sizeofGoalTexture : Nat := structSize goalTextureFields

def sizeofGoalTexturePage : Nat := structSize goalTexturePageFields

/-- From the source: GoalTexture, the in-game texture descriptor.
Arrays are modelled as lists; integer fields as Nat (unsigned) with
num_mips the u8 mip count.  The float field uv_dist is omitted from the
record (floating point is out of scope); it takes part in no
computation here, though it does occupy 4 bytes in the layout
description above. -/
structure GoalTexture where
  w : Int
  h : Int
  num_mips : Nat
  tex1_control : Nat
  psm : Nat
  mip_shift : Nat
  clutpsm : Nat
  dest : List Nat
  clut_dest : Nat
  width : List Nat
  name_ptr : Nat
  size : Nat
  masks : List Nat
deriving DecidableEq, Repr

/-- From the source: GoalTexture::segment_of_mip.  num_mips is a u8
promoted to int by the comparison and the arithmetic. -/
def GoalTexture.segment_of_mip (t : GoalTexture) (mip : Int) : Int :=
  if 2 ≥ (t.num_mips : Int) then (t.num_mips : Int) - mip - 1
  else max 0 (2 - mip)

/-- Little-endian 4-byte read from the simulated game memory (memcpy of
a u32 on the little-endian host).  Memory is a total byte function;
values are reduced mod 256. -/
def readU32 (m : Nat → Nat) (a : Nat) : Nat :=
  m a % 256 + 256 * (m (a + 1) % 256) + 65536 * (m (a + 2) % 256) +
    16777216 * (m (a + 3) % 256)

/-- From the source: GoalTexturePage::try_copy_texture_description.
Reads the 4-byte pointer stored after the page header at index idx; if
it equals the s7 (empty) sentinel, reports false and leaves the output
record untouched; otherwise memcpy's exactly sizeof(GoalTexture) bytes
from memory_base + ptr into the output record and reports true.  The
output record is modelled as its 60-byte image (a byte function). -/
def try_copy_texture_description (m dest : Nat → Nat) (idx membase tpage s7 : Nat) :
    Bool × (Nat → Nat) :=
  let ptr := readU32 m (tpage + sizeofGoalTexturePage + 4 * idx)
  if ptr = s7 then (false, dest)
  else (true, fun k => if k < sizeofGoalTexture then m (membase + ptr + k) % 256 else dest k)

end TexLayout

namespace TexPool

theorem length_modifyAt {α : Type} (l : List α) (i : Nat) (f : α → α) :
    (modifyAt l i f).length = l.length := by
  induction l generalizing i with
  | nil => rfl
  | cons a l ih =>
    cases i with
    | zero => rfl
    | succ n => simp [modifyAt, ih]

theorem nthTex_modifyAt_self (l : List GpuTexture) (i : Nat) (f : GpuTexture → GpuTexture)
    (h : i < l.length) : nthTex (modifyAt l i f) i = f (nthTex l i) := by
  induction l generalizing i with
  | nil => simp at h
  | cons a l ih =>
    cases i with
    | zero => rfl
    | succ n =>
      simp only [modifyAt, nthTex]
      exact ih n (by simpa using h)

theorem nthTex_modifyAt_ne (l : List GpuTexture) (i j : Nat) (f : GpuTexture → GpuTexture)
    (h : j ≠ i) : nthTex (modifyAt l i f) j = nthTex l j := by
  induction l generalizing i j with
  | nil => rfl
  | cons a l ih =>
    cases i with
    | zero =>
      cases j with
      | zero => exact absurd rfl h
      | succ m => rfl
    | succ n =>
      cases j with
      | zero => rfl
      | succ m =>
        simp only [modifyAt, nthTex]
        exact ih n m (by omega)

theorem nthTex_append_lt (l l' : List GpuTexture) (i : Nat) (h : i < l.length) :
    nthTex (l ++ l') i = nthTex l i := by
  induction l generalizing i with
  | nil => simp at h
  | cons a l ih =>
    cases i with
    | zero => rfl
    | succ n =>
      simp only [List.cons_append, nthTex]
      exact ih n (by simpa using h)

theorem nthTex_append_len (l : List GpuTexture) (t : GpuTexture) :
    nthTex (l ++ [t]) l.length = t := by
  induction l with
  | nil => rfl
  | cons a l ih => simpa [nthTex] using ih

theorem nthTex_map_lt (f : GpuTexture → GpuTexture) (l : List GpuTexture) (i : Nat)
    (h : i < l.length) : nthTex (l.map f) i = f (nthTex l i) := by
  induction l generalizing i with
  | nil => simp at h
  | cons a l ih =>
    cases i with
    | zero => rfl
    | succ n =>
      simp only [List.map_cons, nthTex]
      exact ih n (by simpa using h)

theorem findIdxFrom_some_lt (n : String) (l : List GpuTexture) (i : Nat)
    (h : findIdxFrom n l = some i) : i < l.length := by
  induction l generalizing i with
  | nil => simp [findIdxFrom] at h
  | cons a l ih =>
    by_cases ha : a.name = n
    · simp only [findIdxFrom, if_pos ha, Option.some.injEq] at h
      subst h
      simp
    · simp only [findIdxFrom, if_neg ha, Option.map_eq_some'] at h
      obtain ⟨k, hk, hki⟩ := h
      have := ih k hk
      simp only [List.length_cons]
      omega

theorem findIdxFrom_some_name (n : String) (l : List GpuTexture) (i : Nat)
    (h : findIdxFrom n l = some i) : (nthTex l i).name = n := by
  induction l generalizing i with
  | nil => simp [findIdxFrom] at h
  | cons a l ih =>
    by_cases ha : a.name = n
    · simp only [findIdxFrom, if_pos ha, Option.some.injEq] at h
      subst h
      exact ha
    · simp only [findIdxFrom, if_neg ha, Option.map_eq_some'] at h
      obtain ⟨k, hk, hki⟩ := h
      subst hki
      exact ih k hk

theorem findIdxFrom_none_name (n : String) (l : List GpuTexture)
    (h : findIdxFrom n l = none) : ∀ i, i < l.length → (nthTex l i).name ≠ n := by
  induction l with
  | nil => intro i hi; simp at hi
  | cons a l ih =>
    by_cases ha : a.name = n
    · simp [findIdxFrom, ha] at h
    · simp only [findIdxFrom, if_neg ha, Option.map_eq_none'] at h
      intro i hi
      cases i with
      | zero => exact ha
      | succ m => exact ih h m (by simpa using hi)

theorem findIdxFrom_map (f : GpuTexture → GpuTexture) (hf : ∀ t, (f t).name = t.name)
    (n : String) (l : List GpuTexture) : findIdxFrom n (l.map f) = findIdxFrom n l := by
  induction l with
  | nil => rfl
  | cons a l ih => simp [findIdxFrom, hf, ih]

theorem findIdxFrom_modifyAt (f : GpuTexture → GpuTexture) (hf : ∀ t, (f t).name = t.name)
    (n : String) (l : List GpuTexture) (i : Nat) :
    findIdxFrom n (modifyAt l i f) = findIdxFrom n l := by
  induction l generalizing i with
  | nil => rfl
  | cons a l ih =>
    cases i with
    | zero => simp [modifyAt, findIdxFrom, hf]
    | succ m => simp [modifyAt, findIdxFrom, ih]

theorem findIdxFrom_append_none (n : String) (l : List GpuTexture) (t : GpuTexture)
    (h : findIdxFrom n l = none) :
    findIdxFrom n (l ++ [t]) = if t.name = n then some l.length else none := by
  induction l with
  | nil => simp [findIdxFrom]
  | cons a l ih =>
    by_cases ha : a.name = n
    · simp [findIdxFrom, ha] at h
    · simp only [findIdxFrom, if_neg ha, Option.map_eq_none'] at h
      simp only [List.cons_append, findIdxFrom, if_neg ha, ih h]
      by_cases ht : t.name = n <;> simp [ht, ih h]

end TexPool

namespace TexPool

/-- The consistency condition C1 states for one slot handle: a
placeholder identity resolves to the placeholder handle, a loaded
identity to the handle of one of its loaded instances. -/
def instOk (l : List TextureData) (h : Nat) : Prop :=
  if l = [] then h = placeholderId else ∃ d ∈ l, d.gl = h

theorem canonicalHandle_instOk (t : GpuTexture) : instOk t.gpu_textures (canonicalHandle t) := by
  cases hgt : t.gpu_textures with
  | nil => simp [instOk, canonicalHandle, hgt]
  | cons d l => simp [instOk, canonicalHandle, hgt]

/-- Slot-list bookkeeping invariant: for every valid identity index, the
addresses recorded on the identity are exactly the slots whose
back-reference is that identity. -/
def SlotOwner (p : TexturePool) : Prop :=
  ∀ a i, i < p.m_loaded_textures.length →
    (a ∈ (texAt p i).slots ↔ (p.m_textures a).source = some i)

/-- Handle consistency invariant: every written slot points at a valid
identity and stores a handle consistent with that identity's instance
list. -/
def HandleOk (p : TexturePool) : Prop :=
  ∀ a i, (p.m_textures a).source = some i →
    i < p.m_loaded_textures.length ∧
      instOk (texAt p i).gpu_textures (p.m_textures a).gpu_texture

def Inv (p : TexturePool) : Prop := SlotOwner p ∧ HandleOk p

theorem inv_initPool : Inv initPool := by
  constructor
  · intro a i hi
    simp [initPool] at hi
  · intro a i h
    simp [initPool, initRef] at h

theorem writeSlot_m_textures (p : TexturePool) (addr i hdl a : Nat) :
    (writeSlot p addr i hdl).m_textures a =
      if a = addr then ⟨hdl, some i⟩ else p.m_textures a := rfl

theorem writeSlot_mt4hh (p : TexturePool) (addr i hdl : Nat) :
    (writeSlot p addr i hdl).m_mt4hh_textures = p.m_mt4hh_textures := rfl

theorem writeSlot_length (p : TexturePool) (addr i hdl : Nat) :
    (writeSlot p addr i hdl).m_loaded_textures.length = p.m_loaded_textures.length := by
  simp [writeSlot, length_modifyAt]

theorem texAt_writeSlot_gpu_textures (p : TexturePool) (addr i hdl j : Nat)
    (hj : j < p.m_loaded_textures.length) :
    (texAt (writeSlot p addr i hdl) j).gpu_textures = (texAt p j).gpu_textures := by
  unfold writeSlot texAt
  by_cases hji : j = i
  · subst hji
    rw [nthTex_modifyAt_self _ _ _ (by simpa using hj), nthTex_map_lt _ _ _ hj]
  · rw [nthTex_modifyAt_ne _ _ _ _ hji, nthTex_map_lt _ _ _ hj]

theorem texAt_writeSlot_name (p : TexturePool) (addr i hdl j : Nat)
    (hj : j < p.m_loaded_textures.length) :
    (texAt (writeSlot p addr i hdl) j).name = (texAt p j).name := by
  unfold writeSlot texAt
  by_cases hji : j = i
  · subst hji
    rw [nthTex_modifyAt_self _ _ _ (by simpa using hj), nthTex_map_lt _ _ _ hj]
  · rw [nthTex_modifyAt_ne _ _ _ _ hji, nthTex_map_lt _ _ _ hj]

theorem texAt_writeSlot_mt4hh_slots (p : TexturePool) (addr i hdl j : Nat)
    (hj : j < p.m_loaded_textures.length) :
    (texAt (writeSlot p addr i hdl) j).mt4hh_slots = (texAt p j).mt4hh_slots := by
  unfold writeSlot texAt
  by_cases hji : j = i
  · subst hji
    rw [nthTex_modifyAt_self _ _ _ (by simpa using hj), nthTex_map_lt _ _ _ hj]
  · rw [nthTex_modifyAt_ne _ _ _ _ hji, nthTex_map_lt _ _ _ hj]

theorem texAt_writeSlot_slots_mem (p : TexturePool) (addr i hdl j s : Nat)
    (hj : j < p.m_loaded_textures.length) :
    (s ∈ (texAt (writeSlot p addr i hdl) j).slots ↔
      (s = addr ∧ j = i) ∨ (s ≠ addr ∧ s ∈ (texAt p j).slots)) := by
  unfold writeSlot texAt
  by_cases hji : j = i
  · subst hji
    rw [nthTex_modifyAt_self _ _ _ (by simpa using hj), nthTex_map_lt _ _ _ hj]
    simp only [List.mem_append, List.mem_filter, List.mem_singleton, bne_iff_ne, ne_eq]
    tauto
  · rw [nthTex_modifyAt_ne _ _ _ _ hji, nthTex_map_lt _ _ _ hj]
    simp only [List.mem_filter, bne_iff_ne, ne_eq]
    tauto

theorem refresh_m_textures (p : TexturePool) (i : Nat) (a : Nat) :
    (refresh_links p i).m_textures a =
      if a ∈ (texAt p i).slots
      then ⟨canonicalHandle (texAt p i), (p.m_textures a).source⟩
      else p.m_textures a := rfl

theorem refresh_source (p : TexturePool) (i a : Nat) :
    ((refresh_links p i).m_textures a).source = (p.m_textures a).source := by
  rw [refresh_m_textures]
  by_cases hmem : a ∈ (texAt p i).slots <;> simp [hmem]

theorem refresh_reg (p : TexturePool) (i : Nat) :
    (refresh_links p i).m_loaded_textures = p.m_loaded_textures := rfl

theorem refresh_mt4hh (p : TexturePool) (i : Nat) :
    (refresh_links p i).m_mt4hh_textures =
      p.m_mt4hh_textures.map (fun e =>
        if e.slot ∈ (texAt p i).mt4hh_slots ∧ e.ref.source = some i then
          { e with ref := { e.ref with gpu_texture := canonicalHandle (texAt p i) } }
        else e) := rfl

theorem modifyReg_m_textures (p : TexturePool) (i : Nat) (f : GpuTexture → GpuTexture) :
    (modifyReg p i f).m_textures = p.m_textures := rfl

theorem modifyReg_mt4hh (p : TexturePool) (i : Nat) (f : GpuTexture → GpuTexture) :
    (modifyReg p i f).m_mt4hh_textures = p.m_mt4hh_textures := rfl

theorem modifyReg_length (p : TexturePool) (i : Nat) (f : GpuTexture → GpuTexture) :
    (modifyReg p i f).m_loaded_textures.length = p.m_loaded_textures.length := by
  simp [modifyReg, length_modifyAt]

theorem texAt_modifyReg_self (p : TexturePool) (i : Nat) (f : GpuTexture → GpuTexture)
    (hi : i < p.m_loaded_textures.length) :
    texAt (modifyReg p i f) i = f (texAt p i) := by
  unfold modifyReg texAt
  exact nthTex_modifyAt_self _ _ _ hi

theorem texAt_modifyReg_ne (p : TexturePool) (i j : Nat) (f : GpuTexture → GpuTexture)
    (hj : j ≠ i) : texAt (modifyReg p i f) j = texAt p j := by
  unfold modifyReg texAt
  exact nthTex_modifyAt_ne _ _ _ _ hj

end TexPool

namespace TexPool

theorem modifyAt_ge {α : Type} (l : List α) (i : Nat) (f : α → α) (h : l.length ≤ i) :
    modifyAt l i f = l := by
  induction l generalizing i with
  | nil => rfl
  | cons a l ih =>
    cases i with
    | zero => simp at h
    | succ n =>
      simp only [modifyAt]
      rw [ih n (by simpa using h)]

theorem inv_writeSlot (p : TexturePool) (addr i hdl : Nat) (hInv : Inv p)
    (hi : i < p.m_loaded_textures.length)
    (hok : instOk (texAt p i).gpu_textures hdl) :
    Inv (writeSlot p addr i hdl) := by
  obtain ⟨hso, hho⟩ := hInv
  constructor
  · intro a j hj
    rw [writeSlot_length] at hj
    rw [texAt_writeSlot_slots_mem _ _ _ _ _ _ hj, writeSlot_m_textures]
    by_cases ha : a = addr
    · subst ha
      rw [if_pos rfl]
      constructor
      · intro hmem
        rcases hmem with ⟨_, hji⟩ | ⟨hne, _⟩
        · subst hji
          rfl
        · exact absurd rfl hne
      · intro h
        have hij : i = j := by simpa using h
        exact Or.inl ⟨rfl, hij.symm⟩
    · rw [if_neg ha]
      rw [← hso a j hj]
      constructor
      · rintro (⟨h1, _⟩ | ⟨_, h2⟩)
        · exact absurd h1 ha
        · exact h2
      · intro h
        exact Or.inr ⟨ha, h⟩
  · intro a j h
    rw [writeSlot_m_textures] at h
    by_cases ha : a = addr
    · rw [if_pos ha] at h
      have hij : i = j := by simpa using h
      subst hij
      refine ⟨by rwa [writeSlot_length], ?_⟩
      rw [writeSlot_m_textures, if_pos ha, texAt_writeSlot_gpu_textures _ _ _ _ _ hi]
      exact hok
    · rw [if_neg ha] at h
      obtain ⟨hj, hio⟩ := hho a j h
      refine ⟨by rwa [writeSlot_length], ?_⟩
      rw [writeSlot_m_textures, if_neg ha, texAt_writeSlot_gpu_textures _ _ _ _ _ hj]
      exact hio

theorem inv_refresh_modify (p : TexturePool) (i : Nat) (f : GpuTexture → GpuTexture)
    (hInv : Inv p) (hi : i < p.m_loaded_textures.length)
    (hf : ∀ t, (f t).slots = t.slots) :
    Inv (refresh_links (modifyReg p i f) i) := by
  obtain ⟨hso, hho⟩ := hInv
  have hlen : (modifyReg p i f).m_loaded_textures.length = p.m_loaded_textures.length :=
    modifyReg_length p i f
  have hslots : ∀ j, (texAt (modifyReg p i f) j).slots = (texAt p j).slots := by
    intro j
    by_cases hji : j = i
    · subst hji
      rw [texAt_modifyReg_self p j f (by omega)]
      exact hf _
    · rw [texAt_modifyReg_ne p i j f hji]
  have hsrc : ∀ a, ((refresh_links (modifyReg p i f) i).m_textures a).source =
      (p.m_textures a).source := by
    intro a
    rw [refresh_source]
    rfl
  constructor
  · intro a j hj
    rw [refresh_reg, hlen] at hj
    have hts : texAt (refresh_links (modifyReg p i f) i) j = texAt (modifyReg p i f) j := rfl
    rw [hts, hslots, hsrc]
    exact hso a j hj
  · intro a j h
    rw [hsrc] at h
    obtain ⟨hj, hio⟩ := hho a j h
    refine ⟨by rw [refresh_reg, hlen]; exact hj, ?_⟩
    have hts : texAt (refresh_links (modifyReg p i f) i) j = texAt (modifyReg p i f) j := rfl
    rw [refresh_m_textures]
    by_cases hmem : a ∈ (texAt (modifyReg p i f) i).slots
    · rw [if_pos hmem]
      have hmem' : a ∈ (texAt p i).slots := by rw [← hslots i]; exact hmem
      have hji : j = i := by
        have hsi := (hso a i hi).mp hmem'
        rw [h] at hsi
        simpa using hsi
      subst hji
      rw [hts]
      exact canonicalHandle_instOk _
    · rw [if_neg hmem]
      have hji : j ≠ i := by
        intro hji
        subst hji
        exact hmem (by rw [hslots]; exact (hso a j hj).mpr h)
      rw [hts, texAt_modifyReg_ne p i j f hji]
      exact hio

theorem inv_append (p : TexturePool) (t0 : GpuTexture) (hInv : Inv p) (h0 : t0.slots = []) :
    Inv { p with m_loaded_textures := p.m_loaded_textures ++ [t0] } := by
  obtain ⟨hso, hho⟩ := hInv
  constructor
  · intro a j hj
    simp only [List.length_append, List.length_singleton] at hj
    by_cases hjl : j < p.m_loaded_textures.length
    · have hts : texAt { p with m_loaded_textures := p.m_loaded_textures ++ [t0] } j =
          texAt p j := nthTex_append_lt _ _ _ hjl
      rw [hts]
      exact hso a j hjl
    · have hjeq : j = p.m_loaded_textures.length := by omega
      subst hjeq
      have hts : texAt { p with m_loaded_textures := p.m_loaded_textures ++ [t0] }
          p.m_loaded_textures.length = t0 := nthTex_append_len _ _
      rw [hts, h0]
      simp only [List.not_mem_nil, false_iff]
      intro hsome
      exact absurd (hho a _ hsome).1 (by omega)
  · intro a j h
    obtain ⟨hj, hio⟩ := hho a j h
    refine ⟨by simp only [List.length_append, List.length_singleton]; omega, ?_⟩
    have hts : texAt { p with m_loaded_textures := p.m_loaded_textures ++ [t0] } j =
        texAt p j := nthTex_append_lt _ _ _ hj
    rw [hts]
    exact hio

theorem inv_getOrCreate (p : TexturePool) (t0 : GpuTexture) (hInv : Inv p)
    (h0 : t0.slots = []) :
    Inv (getOrCreateTex p t0).1 ∧
      (getOrCreateTex p t0).2 < (getOrCreateTex p t0).1.m_loaded_textures.length := by
  cases hf : findName p t0.name with
  | none =>
      simp only [getOrCreateTex, hf]
      refine ⟨inv_append p t0 hInv h0, ?_⟩
      simp
  | some i =>
      simp only [getOrCreateTex, hf]
      exact ⟨hInv, findIdxFrom_some_lt _ _ _ hf⟩

theorem texAt_modifyReg_slots (p : TexturePool) (i : Nat) (f : GpuTexture → GpuTexture)
    (hf : ∀ t, (f t).slots = t.slots) (j : Nat) :
    (texAt (modifyReg p i f) j).slots = (texAt p j).slots := by
  by_cases hji : j = i
  · subst hji
    by_cases hj : j < p.m_loaded_textures.length
    · rw [texAt_modifyReg_self p j f hj, hf]
    · unfold modifyReg texAt
      rw [modifyAt_ge _ _ _ (by omega)]
  · rw [texAt_modifyReg_ne p i j f hji]

theorem texAt_modifyReg_gpu_textures (p : TexturePool) (i : Nat) (f : GpuTexture → GpuTexture)
    (hf : ∀ t, (f t).gpu_textures = t.gpu_textures) (j : Nat) :
    (texAt (modifyReg p i f) j).gpu_textures = (texAt p j).gpu_textures := by
  by_cases hji : j = i
  · subst hji
    by_cases hj : j < p.m_loaded_textures.length
    · rw [texAt_modifyReg_self p j f hj, hf]
    · unfold modifyReg texAt
      rw [modifyAt_ge _ _ _ (by omega)]
  · rw [texAt_modifyReg_ne p i j f hji]

theorem texAt_modifyReg_name (p : TexturePool) (i : Nat) (f : GpuTexture → GpuTexture)
    (hf : ∀ t, (f t).name = t.name) (j : Nat) :
    (texAt (modifyReg p i f) j).name = (texAt p j).name := by
  by_cases hji : j = i
  · subst hji
    by_cases hj : j < p.m_loaded_textures.length
    · rw [texAt_modifyReg_self p j f hj, hf]
    · unfold modifyReg texAt
      rw [modifyAt_ge _ _ _ (by omega)]
  · rw [texAt_modifyReg_ne p i j f hji]

theorem inv_modifyReg_fields (p : TexturePool) (i : Nat) (f : GpuTexture → GpuTexture)
    (hInv : Inv p) (hslots : ∀ t, (f t).slots = t.slots)
    (hinst : ∀ t, (f t).gpu_textures = t.gpu_textures) : Inv (modifyReg p i f) := by
  obtain ⟨hso, hho⟩ := hInv
  constructor
  · intro a j hj
    rw [modifyReg_length] at hj
    rw [texAt_modifyReg_slots p i f hslots j]
    exact hso a j hj
  · intro a j h
    obtain ⟨hj, hio⟩ := hho a j h
    exact ⟨by rw [modifyReg_length]; exact hj,
      by rw [texAt_modifyReg_gpu_textures p i f hinst j]; exact hio⟩

theorem inv_set_mt4hh (p : TexturePool) (x : List Mt4hhTexture) (hInv : Inv p) :
    Inv { p with m_mt4hh_textures := x } := hInv

theorem inv_addPaired (p : TexturePool) (addr i hdl : Nat) (hInv : Inv p) :
    Inv (addPaired p addr i hdl) := by
  unfold addPaired
  exact inv_set_mt4hh _ _
    (inv_modifyReg_fields p i _ hInv (fun t => rfl) (fun t => rfl))

theorem addPaired_m_textures (p : TexturePool) (addr i hdl : Nat) :
    (addPaired p addr i hdl).m_textures = p.m_textures := rfl

theorem addPaired_length (p : TexturePool) (addr i hdl : Nat) :
    (addPaired p addr i hdl).m_loaded_textures.length = p.m_loaded_textures.length := by
  unfold addPaired
  simp only [modifyReg, length_modifyAt]

end TexPool

namespace TexPool

theorem inv_uploadStep (i : Nat) (paired : Bool) (q : TexturePool) (a : Nat)
    (hInv : Inv q) (hi : i < q.m_loaded_textures.length) :
    Inv (uploadStep i paired q a) := by
  simp only [uploadStep]
  by_cases hp : paired = true
  · rw [if_pos hp]
    exact inv_addPaired _ _ _ _
      (inv_writeSlot q a i _ hInv hi (canonicalHandle_instOk _))
  · rw [if_neg hp]
    exact inv_writeSlot q a i _ hInv hi (canonicalHandle_instOk _)

theorem uploadStep_length (i : Nat) (paired : Bool) (q : TexturePool) (a : Nat) :
    (uploadStep i paired q a).m_loaded_textures.length = q.m_loaded_textures.length := by
  simp only [uploadStep]
  by_cases hp : paired = true
  · rw [if_pos hp, addPaired_length, writeSlot_length]
  · rw [if_neg hp, writeSlot_length]

theorem inv_writeSlots (i : Nat) (paired : Bool) (dests : List Nat) (q : TexturePool)
    (hInv : Inv q) (hi : i < q.m_loaded_textures.length) :
    Inv (writeSlots i paired dests q) := by
  induction dests generalizing q with
  | nil => exact hInv
  | cons a rest ih =>
    exact ih _ (inv_uploadStep i paired q a hInv hi)
      (by rw [uploadStep_length]; exact hi)

theorem relocate_aux_length (p : TexturePool) (dst src n : Nat) (q : TexturePool) :
    (relocate_aux p dst src n q).m_loaded_textures.length =
      q.m_loaded_textures.length := by
  induction n with
  | zero => rfl
  | succ n ih =>
    cases hsrc : (p.m_textures (src + n)).source with
    | none => simp only [relocate_aux, hsrc]; exact ih
    | some i =>
      simp only [relocate_aux, hsrc]
      rw [writeSlot_length]
      exact ih

theorem relocate_aux_gpu_textures (p : TexturePool) (dst src n : Nat) (q : TexturePool)
    (j : Nat) (hj : j < q.m_loaded_textures.length) :
    (texAt (relocate_aux p dst src n q) j).gpu_textures = (texAt q j).gpu_textures := by
  induction n with
  | zero => rfl
  | succ n ih =>
    cases hsrc : (p.m_textures (src + n)).source with
    | none => simp only [relocate_aux, hsrc]; exact ih
    | some i =>
      simp only [relocate_aux, hsrc]
      rw [texAt_writeSlot_gpu_textures _ _ _ _ _ (by rw [relocate_aux_length]; exact hj)]
      exact ih

theorem inv_relocate_aux (p : TexturePool) (hInv : Inv p) (dst src n : Nat)
    (q : TexturePool) (hq : Inv q)
    (hlen : q.m_loaded_textures.length = p.m_loaded_textures.length)
    (hgt : ∀ j, j < p.m_loaded_textures.length →
      (texAt q j).gpu_textures = (texAt p j).gpu_textures) :
    Inv (relocate_aux p dst src n q) := by
  induction n with
  | zero => exact hq
  | succ n ih =>
    cases hsrc : (p.m_textures (src + n)).source with
    | none => simp only [relocate_aux, hsrc]; exact ih
    | some i =>
      simp only [relocate_aux, hsrc]
      obtain ⟨hip, hio⟩ := hInv.2 (src + n) i hsrc
      apply inv_writeSlot _ _ _ _ ih
      · rw [relocate_aux_length, hlen]; exact hip
      · rw [relocate_aux_gpu_textures p dst src n q i (by rw [hlen]; exact hip), hgt i hip]
        exact hio

theorem inv_give_core (p : TexturePool) (inp : TextureInput) (hInv : Inv p) :
    Inv (give_texture_core p inp).1 ∧
      (give_texture_core p inp).2 < (give_texture_core p inp).1.m_loaded_textures.length := by
  obtain ⟨h1, h2⟩ := inv_getOrCreate p (inputTexture inp) hInv rfl
  simp only [give_texture_core]
  refine ⟨inv_refresh_modify _ _ _ h1 h2 (fun t => rfl), ?_⟩
  simp only [refresh_reg, modifyReg_length]
  exact h2

theorem inv_unload (p : TexturePool) (nm : String) (id : Nat) (hInv : Inv p) :
    Inv (unload_texture p nm id) := by
  unfold unload_texture
  cases hf : findName p nm with
  | none => exact hInv
  | some i =>
    simp only [hf]
    by_cases hany : (texAt p i).gpu_textures.any (fun d => d.gl == id) = true
    · rw [if_pos hany]
      exact inv_refresh_modify p i _ hInv (findIdxFrom_some_lt _ _ _ hf) (fun t => rfl)
    · rw [if_neg hany]
      exact hInv

theorem inv_step (p : TexturePool) (op : Op) (hInv : Inv p) : Inv (step p op) := by
  cases op with
  | register inp => exact (inv_give_core p inp hInv).1
  | registerAndBind inp addr =>
      obtain ⟨h1, h2⟩ := inv_give_core p inp hInv
      exact inv_writeSlot _ _ _ _ h1 h2 (canonicalHandle_instOk _)
  | detach nm id => exact inv_unload p nm id hInv
  | upload nm dests paired =>
      obtain ⟨h1, h2⟩ := inv_getOrCreate p (placeholderTexture nm) hInv rfl
      exact inv_writeSlots _ _ _ _ h1 h2
  | copy dst src n =>
      exact inv_relocate_aux p hInv dst src n p hInv rfl (fun j hj => rfl)
  | bindExisting nm addr =>
      simp only [step, move_existing_to_vram]
      cases hf : findName p nm with
      | none => simp only [hf]; exact hInv
      | some i =>
          simp only [hf]
          exact inv_writeSlot _ _ _ _ hInv (findIdxFrom_some_lt _ _ _ hf)
            (canonicalHandle_instOk _)

theorem inv_run (p : TexturePool) (ops : List Op) (hInv : Inv p) : Inv (run p ops) := by
  induction ops generalizing p with
  | nil => exact hInv
  | cons op ops ih => exact ih _ (inv_step p op hInv)

end TexPool

namespace TexPool

theorem getOrCreate_m_textures (p : TexturePool) (t0 : GpuTexture) :
    (getOrCreateTex p t0).1.m_textures = p.m_textures := by
  cases hf : findName p t0.name <;> simp only [getOrCreateTex, hf]

theorem give_core_source (p : TexturePool) (inp : TextureInput) (a : Nat) :
    ((give_texture_core p inp).1.m_textures a).source = (p.m_textures a).source := by
  simp only [give_texture_core]
  rw [refresh_source]
  show (((getOrCreateTex p (inputTexture inp)).1.m_textures) a).source = _
  rw [getOrCreate_m_textures]

theorem uploadStep_m_textures (i : Nat) (paired : Bool) (q : TexturePool) (a b : Nat) :
    (uploadStep i paired q a).m_textures b =
      if b = a then ⟨canonicalHandle (texAt q i), some i⟩ else q.m_textures b := by
  simp only [uploadStep]
  by_cases hp : paired = true
  · rw [if_pos hp, addPaired_m_textures, writeSlot_m_textures]
  · rw [if_neg hp, writeSlot_m_textures]

theorem writeSlots_source (i : Nat) (paired : Bool) (dests : List Nat) (q : TexturePool)
    (b : Nat) :
    ((writeSlots i paired dests q).m_textures b).source =
      if b ∈ dests then some i else (q.m_textures b).source := by
  induction dests generalizing q with
  | nil => simp [writeSlots]
  | cons a rest ih =>
    show ((writeSlots i paired rest (uploadStep i paired q a)).m_textures b).source = _
    rw [ih]
    by_cases hb : b ∈ rest
    · simp [hb]
    · rw [if_neg hb, uploadStep_m_textures]
      by_cases hba : b = a
      · simp [hba]
      · rw [if_neg hba]
        simp [List.mem_cons, hba, hb]

theorem unload_source (p : TexturePool) (nm : String) (id : Nat) (a : Nat) :
    ((unload_texture p nm id).m_textures a).source = (p.m_textures a).source := by
  unfold unload_texture
  cases hf : findName p nm with
  | none => rfl
  | some i =>
    simp only [hf]
    by_cases hany : (texAt p i).gpu_textures.any (fun d => d.gl == id) = true
    · rw [if_pos hany, refresh_source]
      rfl
    · rw [if_neg hany]

theorem relocate_aux_source_none (p : TexturePool) (dst src n : Nat) (q : TexturePool)
    (a : Nat) :
    (((relocate_aux p dst src n q).m_textures a).source = none) ↔
      ((q.m_textures a).source = none ∧
        ∀ k, k < n → ¬(a = dst + k ∧ ((p.m_textures (src + k)).source).isSome = true)) := by
  induction n with
  | zero =>
    simp only [relocate_aux]
    constructor
    · intro h
      exact ⟨h, fun k hk => by omega⟩
    · exact fun h => h.1
  | succ n ih =>
    cases hsrc : (p.m_textures (src + n)).source with
    | none =>
      simp only [relocate_aux, hsrc]
      rw [ih]
      constructor
      · rintro ⟨h1, h2⟩
        refine ⟨h1, fun k hk => ?_⟩
        by_cases hkn : k = n
        · subst hkn
          rintro ⟨_, hsome⟩
          rw [hsrc] at hsome
          simp at hsome
        · exact h2 k (by omega)
      · rintro ⟨h1, h2⟩
        exact ⟨h1, fun k hk => h2 k (by omega)⟩
    | some i =>
      simp only [relocate_aux, hsrc]
      rw [writeSlot_m_textures]
      by_cases ha : a = dst + n
      · rw [if_pos ha]
        constructor
        · intro h
          exact absurd h (by simp)
        · rintro ⟨_, h2⟩
          exact absurd ⟨ha, by rw [hsrc]; rfl⟩ (h2 n (by omega))
      · rw [if_neg ha]
        rw [ih]
        constructor
        · rintro ⟨h1, h2⟩
          refine ⟨h1, fun k hk => ?_⟩
          by_cases hkn : k = n
          · subst hkn
            rintro ⟨hak, _⟩
            exact ha hak
          · exact h2 k (by omega)
        · rintro ⟨h1, h2⟩
          exact ⟨h1, fun k hk => h2 k (by omega)⟩

theorem step_source_none (p : TexturePool) (op : Op) (a : Nat) :
    (((step p op).m_textures a).source = none) ↔
      ((p.m_textures a).source = none ∧ writesToB p op a = false) := by
  cases op with
  | register inp =>
    simp only [step, writesToB, give_texture]
    rw [give_core_source]
    simp
  | registerAndBind inp addr =>
    simp only [step, writesToB, give_texture_and_load_to_vram]
    rw [writeSlot_m_textures]
    by_cases ha : a = addr
    · rw [if_pos ha]
      simp [ha]
    · rw [if_neg ha, give_core_source]
      simp [ha]
  | detach nm id =>
    simp only [step, writesToB]
    rw [unload_source]
    simp
  | upload nm dests paired =>
    simp only [step, writesToB, upload_one_descriptor]
    rw [writeSlots_source, getOrCreate_m_textures]
    by_cases hmem : a ∈ dests
    · rw [if_pos hmem]
      simp [List.elem_iff, hmem]
    · rw [if_neg hmem]
      simp [List.elem_iff, hmem]
  | copy dst src n =>
    simp only [step, writesToB, relocate]
    rw [relocate_aux_source_none]
    rw [List.any_eq_false]
    simp only [List.mem_range, Bool.not_eq_true, Bool.and_eq_true, beq_iff_eq]
  | bindExisting nm addr =>
    simp only [step, writesToB, move_existing_to_vram]
    cases hf : findName p nm with
    | none =>
      simp only [hf]
      simp
    | some i =>
      simp only [hf]
      rw [writeSlot_m_textures]
      by_cases ha : a = addr
      · rw [if_pos ha]
        simp [ha]
      · rw [if_neg ha]
        simp [ha]

theorem run_source_none (p : TexturePool) (ops : List Op) (a : Nat) :
    (((run p ops).m_textures a).source = none) ↔
      ((p.m_textures a).source = none ∧ everWrittenB p ops a = false) := by
  induction ops generalizing p with
  | nil => simp [run, everWrittenB]
  | cons op ops ih =>
    show (((run (step p op) ops).m_textures a).source = none) ↔ _
    rw [ih, step_source_none]
    simp only [everWrittenB, Bool.or_eq_false_iff]
    tauto

theorem run_append_ops (p : TexturePool) (l1 l2 : List Op) :
    run p (l1 ++ l2) = run (run p l1) l2 := by
  simp [run, List.foldl_append]

theorem step_source_isSome (p : TexturePool) (op : Op) (a : Nat)
    (h : ((p.m_textures a).source).isSome = true) :
    (((step p op).m_textures a).source).isSome = true := by
  rcases hs : ((step p op).m_textures a).source with _ | i
  · have := (step_source_none p op a).mp hs
    rw [this.1] at h
    simp at h
  · rfl

theorem run_source_isSome (p : TexturePool) (ops : List Op) (a : Nat)
    (h : ((p.m_textures a).source).isSome = true) :
    (((run p ops).m_textures a).source).isSome = true := by
  induction ops generalizing p with
  | nil => exact h
  | cons op ops ih => exact ih _ (step_source_isSome p op a h)

end TexPool

namespace TexPool

theorem canonicalHandle_congr (t t' : GpuTexture) (h : t.gpu_textures = t'.gpu_textures) :
    canonicalHandle t = canonicalHandle t' := by
  unfold canonicalHandle
  rw [h]

theorem uploadStep_gpu_textures (i : Nat) (paired : Bool) (q : TexturePool) (a j : Nat)
    (hj : j < q.m_loaded_textures.length) :
    (texAt (uploadStep i paired q a) j).gpu_textures = (texAt q j).gpu_textures := by
  simp only [uploadStep]
  by_cases hp : paired = true
  · rw [if_pos hp]
    refine Eq.trans
      (texAt_modifyReg_gpu_textures (writeSlot q a i (canonicalHandle (texAt q i))) i
        (fun t => { t with mt4hh_slots := t.mt4hh_slots ++ [a] }) (fun t => rfl) j) ?_
    exact texAt_writeSlot_gpu_textures _ _ _ _ _ hj
  · rw [if_neg hp]
    exact texAt_writeSlot_gpu_textures _ _ _ _ _ hj

theorem writeSlots_length (i : Nat) (paired : Bool) (dests : List Nat) (q : TexturePool) :
    (writeSlots i paired dests q).m_loaded_textures.length =
      q.m_loaded_textures.length := by
  induction dests generalizing q with
  | nil => rfl
  | cons a rest ih =>
    show (writeSlots i paired rest (uploadStep i paired q a)).m_loaded_textures.length = _
    rw [ih, uploadStep_length]

theorem writeSlots_gpu_textures (i : Nat) (paired : Bool) (dests : List Nat)
    (q : TexturePool) (j : Nat) (hj : j < q.m_loaded_textures.length) :
    (texAt (writeSlots i paired dests q) j).gpu_textures = (texAt q j).gpu_textures := by
  induction dests generalizing q with
  | nil => rfl
  | cons a rest ih =>
    show (texAt (writeSlots i paired rest (uploadStep i paired q a)) j).gpu_textures = _
    rw [ih _ (by rw [uploadStep_length]; exact hj), uploadStep_gpu_textures i paired q a j hj]

theorem writeSlots_m_textures_full (i : Nat) (paired : Bool) (dests : List Nat)
    (q : TexturePool) (b : Nat) (hi : i < q.m_loaded_textures.length) :
    (writeSlots i paired dests q).m_textures b =
      if b ∈ dests then ⟨canonicalHandle (texAt q i), some i⟩ else q.m_textures b := by
  induction dests generalizing q with
  | nil => simp [writeSlots]
  | cons a rest ih =>
    show (writeSlots i paired rest (uploadStep i paired q a)).m_textures b = _
    rw [ih _ (by rw [uploadStep_length]; exact hi)]
    rw [canonicalHandle_congr (texAt (uploadStep i paired q a) i) (texAt q i)
      (uploadStep_gpu_textures i paired q a i hi)]
    by_cases hb : b ∈ rest
    · simp [hb]
    · rw [if_neg hb, uploadStep_m_textures]
      by_cases hba : b = a
      · simp [hba]
      · rw [if_neg hba]
        simp [List.mem_cons, hba, hb]

theorem findName_modifyReg (p : TexturePool) (i : Nat) (f : GpuTexture → GpuTexture)
    (hf : ∀ t, (f t).name = t.name) (n : String) :
    findName (modifyReg p i f) n = findName p n := by
  unfold findName modifyReg
  exact findIdxFrom_modifyAt f hf n _ i

theorem findName_writeSlot (p : TexturePool) (addr i hdl : Nat) (n : String) :
    findName (writeSlot p addr i hdl) n = findName p n := by
  show findIdxFrom n
      (modifyAt
        (p.m_loaded_textures.map fun t =>
          { t with slots := t.slots.filter (fun s => s != addr) })
        i fun t => { t with slots := t.slots ++ [addr] }) =
    findIdxFrom n p.m_loaded_textures
  rw [findIdxFrom_modifyAt (fun t => { t with slots := t.slots ++ [addr] }) (fun t => rfl) n _ i,
    findIdxFrom_map (fun t => { t with slots := t.slots.filter (fun s => s != addr) })
      (fun t => rfl) n _]

theorem findName_refresh (p : TexturePool) (i : Nat) (n : String) :
    findName (refresh_links p i) n = findName p n := rfl

theorem findName_addPaired (p : TexturePool) (addr i hdl : Nat) (n : String) :
    findName (addPaired p addr i hdl) n = findName p n := by
  show findIdxFrom n
      (modifyAt p.m_loaded_textures i fun t =>
        { t with mt4hh_slots := t.mt4hh_slots ++ [addr] }) =
    findIdxFrom n p.m_loaded_textures
  exact findIdxFrom_modifyAt (fun t => { t with mt4hh_slots := t.mt4hh_slots ++ [addr] })
    (fun t => rfl) n _ i

theorem findName_uploadStep (i : Nat) (paired : Bool) (q : TexturePool) (a : Nat)
    (n : String) : findName (uploadStep i paired q a) n = findName q n := by
  simp only [uploadStep]
  by_cases hp : paired = true
  · rw [if_pos hp, findName_addPaired, findName_writeSlot]
  · rw [if_neg hp, findName_writeSlot]

theorem findName_writeSlots (i : Nat) (paired : Bool) (dests : List Nat) (q : TexturePool)
    (n : String) : findName (writeSlots i paired dests q) n = findName q n := by
  induction dests generalizing q with
  | nil => rfl
  | cons a rest ih =>
    show findName (writeSlots i paired rest (uploadStep i paired q a)) n = _
    rw [ih, findName_uploadStep]

theorem findName_relocate_aux (p : TexturePool) (dst src n : Nat) (q : TexturePool)
    (nm : String) : findName (relocate_aux p dst src n q) nm = findName q nm := by
  induction n with
  | zero => rfl
  | succ n ih =>
    cases hsrc : (p.m_textures (src + n)).source with
    | none => simp only [relocate_aux, hsrc]; exact ih
    | some i =>
      simp only [relocate_aux, hsrc]
      rw [findName_writeSlot]
      exact ih

theorem findName_unload (p : TexturePool) (nm : String) (id : Nat) (n : String) :
    findName (unload_texture p nm id) n = findName p n := by
  unfold unload_texture
  cases hf : findName p nm with
  | none => rfl
  | some i =>
    simp only [hf]
    by_cases hany : (texAt p i).gpu_textures.any (fun d => d.gl == id) = true
    · rw [if_pos hany, findName_refresh,
        findName_modifyReg p i
          (fun t => { t with gpu_textures := removeFirstHandle id t.gpu_textures })
          (fun t => rfl)]
    · rw [if_neg hany]

theorem unload_found (p : TexturePool) (nm : String) (id i : Nat)
    (hf : findName p nm = some i)
    (hany : (texAt p i).gpu_textures.any (fun d => d.gl == id) = true) :
    unload_texture p nm id =
      refresh_links
        (modifyReg p i fun t => { t with gpu_textures := removeFirstHandle id t.gpu_textures })
        i := by
  unfold unload_texture
  rw [hf]
  simp only [if_pos hany]

end TexPool

namespace TexPool

theorem lookup_eq_none_iff (p : TexturePool) (a : Nat) :
    lookup p a = none ↔ (p.m_textures a).source = none := by
  unfold lookup
  cases h : (p.m_textures a).source <;> simp

/-- C1.  Slot-handle consistency invariant: in every state the
coordinator can reach from the fresh pool, every VRAM slot with a
non-none identity back-reference points at a valid identity; if that
identity is a placeholder (zero loaded instances) the slot's resolved
handle is the global placeholder handle, and otherwise the resolved
handle is the handle of one of the identity's currently loaded
instances. -/
theorem claim1_slot_handle_consistency (ops : List Op) (a i : Nat)
    (h : ((run initPool ops).m_textures a).source = some i) :
    i < (run initPool ops).m_loaded_textures.length ∧
    ((texAt (run initPool ops) i).gpu_textures = [] →
      ((run initPool ops).m_textures a).gpu_texture = placeholderId) ∧
    ((texAt (run initPool ops) i).gpu_textures ≠ [] →
      ∃ d ∈ (texAt (run initPool ops) i).gpu_textures,
        d.gl = ((run initPool ops).m_textures a).gpu_texture) := by
  obtain ⟨hlt, hio⟩ := (inv_run initPool ops inv_initPool).2 a i h
  refine ⟨hlt, ?_, ?_⟩
  · intro he
    unfold instOk at hio
    rw [if_pos he] at hio
    exact hio
  · intro he
    unfold instOk at hio
    rw [if_neg he] at hio
    exact hio

theorem claim1_witness :
    0 < (run initPool [Op.upload "tex" [3] false]).m_loaded_textures.length ∧
    ((texAt (run initPool [Op.upload "tex" [3] false]) 0).gpu_textures = [] →
      ((run initPool [Op.upload "tex" [3] false]).m_textures 3).gpu_texture = placeholderId) ∧
    ((texAt (run initPool [Op.upload "tex" [3] false]) 0).gpu_textures ≠ [] →
      ∃ d ∈ (texAt (run initPool [Op.upload "tex" [3] false]) 0).gpu_textures,
        d.gl = ((run initPool [Op.upload "tex" [3] false]).m_textures 3).gpu_texture) :=
  claim1_slot_handle_consistency [Op.upload "tex" [3] false] 3 0 (by decide)

/-- C2.  Slot monotonicity: once a slot has a non-none back-reference
after some operation sequence, it keeps a non-none back-reference after
any further operations; equivalently lookup never transitions from
returning a handle back to returning absent. -/
theorem claim2_slot_monotonic (ops1 ops2 : List Op) (a : Nat) :
    (((run initPool ops1).m_textures a).source ≠ none →
      ((run initPool (ops1 ++ ops2)).m_textures a).source ≠ none) ∧
    (lookup (run initPool ops1) a ≠ none →
      lookup (run initPool (ops1 ++ ops2)) a ≠ none) := by
  have key : ((run initPool ops1).m_textures a).source ≠ none →
      ((run initPool (ops1 ++ ops2)).m_textures a).source ≠ none := by
    intro h
    rw [run_append_ops]
    have hs : (((run initPool ops1).m_textures a).source).isSome = true := by
      cases hv : ((run initPool ops1).m_textures a).source
      · exact absurd hv h
      · rfl
    have hmono := run_source_isSome (run initPool ops1) ops2 a hs
    intro hnone
    rw [hnone] at hmono
    simp at hmono
  have h2 : ∀ q : TexturePool, lookup q a ≠ none ↔ (q.m_textures a).source ≠ none :=
    fun q => not_congr (lookup_eq_none_iff q a)
  exact ⟨key, fun h => (h2 _).mpr (key ((h2 _).mp h))⟩

theorem claim2_witness :
    ((run initPool [Op.upload "tex" [3] false]).m_textures 3).source ≠ none ∧
    lookup (run initPool ([Op.upload "tex" [3] false] ++ [Op.detach "tex" 0])) 3 ≠ none :=
  ⟨by decide, (claim2_slot_monotonic [Op.upload "tex" [3] false] [Op.detach "tex" 0] 3).2
    (by decide)⟩

/-- C4.  Lookup absent iff never written: lookup returns an absent
result exactly when no operation of the sequence has written the slot
(its back-reference is still none), returns the slot's stored resolved
handle otherwise, and on the freshly constructed pool lookup is absent
for every address. -/
theorem claim4_lookup_absent_iff_never_written (ops : List Op) (a : Nat) :
    lookup initPool a = none ∧
    (lookup (run initPool ops) a = none ↔ everWrittenB initPool ops a = false) ∧
    (((run initPool ops).m_textures a).source ≠ none →
      lookup (run initPool ops) a =
        some ((run initPool ops).m_textures a).gpu_texture) := by
  refine ⟨rfl, ?_, ?_⟩
  · rw [lookup_eq_none_iff, run_source_none]
    simp [initPool, initRef]
  · intro h
    unfold lookup
    cases hs : ((run initPool ops).m_textures a).source with
    | none => exact absurd hs h
    | some i => rfl

theorem claim4_witness :
    lookup initPool 3 = none ∧
    (lookup (run initPool [Op.upload "tex" [3] false]) 3 = none ↔
      everWrittenB initPool [Op.upload "tex" [3] false] 3 = false) ∧
    lookup (run initPool [Op.upload "tex" [3] false]) 3 =
      some ((run initPool [Op.upload "tex" [3] false]).m_textures 3).gpu_texture :=
  ⟨(claim4_lookup_absent_iff_never_written [Op.upload "tex" [3] false] 3).1,
   (claim4_lookup_absent_iff_never_written [Op.upload "tex" [3] false] 3).2.1,
   (claim4_lookup_absent_iff_never_written [Op.upload "tex" [3] false] 3).2.2 (by decide)⟩

end TexPool

namespace TexLayout

/-- C8.  Binary descriptor layout contract: under the C ABI layout the
GoalTexture record occupies exactly 60 bytes, with clutpsm at byte
offset 8 (field index 6) and clut_dest at byte offset 24 (field index
8); the decoder constant sizeofGoalTexture equals this value.  These
are compile-time facts (the source establishes them by static_assert,
evaluated at build time, not per decode call). -/
theorem claim8_goal_texture_layout :
    structSize goalTextureFields = 60 ∧
    (layoutOffsets goalTextureFields 0).get? 6 = some 8 ∧
    (layoutOffsets goalTextureFields 0).get? 8 = some 24 ∧
    sizeofGoalTexture = 60 := by decide

/-- C9.  Empty-sentinel descriptors are skipped, not errors: when the
4-byte pointer at the page's index position equals the sentinel, the
decoder reports false and leaves the output record untouched; otherwise
it reports true and copies exactly the 60 descriptor bytes from the
memory base at that pointer, leaving all other output bytes untouched.
The function is total, so a sentinel entry is never an error state. -/
theorem claim9_sentinel_skip (m d : Nat → Nat) (idx membase tpage s7 : Nat) :
    (readU32 m (tpage + sizeofGoalTexturePage + 4 * idx) = s7 →
      try_copy_texture_description m d idx membase tpage s7 = (false, d)) ∧
    (readU32 m (tpage + sizeofGoalTexturePage + 4 * idx) ≠ s7 →
      (try_copy_texture_description m d idx membase tpage s7).1 = true ∧
      (∀ k, k < 60 →
        (try_copy_texture_description m d idx membase tpage s7).2 k =
          m (membase + readU32 m (tpage + sizeofGoalTexturePage + 4 * idx) + k) % 256) ∧
      (∀ k, 60 ≤ k →
        (try_copy_texture_description m d idx membase tpage s7).2 k = d k)) := by
  unfold try_copy_texture_description
  constructor
  · intro h
    rw [if_pos h]
  · intro h
    rw [if_neg h]
    have h60 : sizeofGoalTexture = 60 := by decide
    refine ⟨rfl, ?_, ?_⟩
    · intro k hk
      show (if k < sizeofGoalTexture then _ else _) = _
      rw [h60, if_pos hk]
    · intro k hk
      show (if k < sizeofGoalTexture then _ else _) = _
      rw [h60, if_neg (by omega)]

theorem claim9_witness :
    try_copy_texture_description (fun _ => 0) (fun _ => 1) 0 0 0 0 = (false, fun _ => 1) ∧
    (try_copy_texture_description (fun _ => 0) (fun _ => 1) 0 0 0 5).1 = true ∧
    (try_copy_texture_description (fun _ => 0) (fun _ => 1) 0 0 0 5).2 3 = 0 ∧
    (try_copy_texture_description (fun _ => 0) (fun _ => 1) 0 0 0 5).2 77 = 1 :=
  ⟨(claim9_sentinel_skip (fun _ => 0) (fun _ => 1) 0 0 0 0).1 (by decide),
   ((claim9_sentinel_skip (fun _ => 0) (fun _ => 1) 0 0 0 5).2 (by decide)).1,
   Eq.trans (((claim9_sentinel_skip (fun _ => 0) (fun _ => 1) 0 0 0 5).2 (by decide)).2.1 3
     (by decide)) (by decide),
   Eq.trans (((claim9_sentinel_skip (fun _ => 0) (fun _ => 1) 0 0 0 5).2 (by decide)).2.2 77
     (by decide)) (by decide)⟩

/-- C10.  Mip-segment resolution is in range: for a descriptor with at
least one mip and a mip index within the mip count, segment_of_mip
returns a value between 0 and 2 that is also strictly less than the
mip count, so it indexes both the page's 3-entry segment table and a
valid mip. -/
theorem claim10_segment_of_mip_in_range (t : GoalTexture) (mip : Int)
    (h1 : 1 ≤ t.num_mips) (h2 : 0 ≤ mip) (h3 : mip < (t.num_mips : Int)) :
    0 ≤ t.segment_of_mip mip ∧ t.segment_of_mip mip ≤ 2 ∧
      t.segment_of_mip mip < (t.num_mips : Int) := by
  unfold GoalTexture.segment_of_mip
  by_cases hc : 2 ≥ (t.num_mips : Int)
  · rw [if_pos hc]
    omega
  · rw [if_neg hc]
    push_neg at hc
    refine ⟨le_max_left _ _, max_le (by omega) (by omega), max_lt (by omega) (by omega)⟩

/-- Concrete descriptor used by the C10 witness. -/
def sampleGoalTexture : GoalTexture := ⟨0, 0, 3, 0, 0, 0, 0, [], 0, [], 0, 0, []⟩

theorem claim10_witness :
    0 ≤ sampleGoalTexture.segment_of_mip 1 ∧ sampleGoalTexture.segment_of_mip 1 ≤ 2 ∧
      sampleGoalTexture.segment_of_mip 1 < (sampleGoalTexture.num_mips : Int) :=
  claim10_segment_of_mip_in_range sampleGoalTexture 1 (by decide) (by decide) (by decide)

end TexLayout

namespace TexPool

theorem texAt_modifyReg_mt4hh_slots (p : TexturePool) (i : Nat) (f : GpuTexture → GpuTexture)
    (hf : ∀ t, (f t).mt4hh_slots = t.mt4hh_slots) (j : Nat) :
    (texAt (modifyReg p i f) j).mt4hh_slots = (texAt p j).mt4hh_slots := by
  by_cases hji : j = i
  · subst hji
    by_cases hj : j < p.m_loaded_textures.length
    · rw [texAt_modifyReg_self p j f hj, hf]
    · unfold modifyReg texAt
      rw [modifyAt_ge _ _ _ (by omega)]
  · rw [texAt_modifyReg_ne p i j f hji]

theorem modifyAt_modifyAt {α : Type} (l : List α) (i : Nat) (f g : α → α) :
    modifyAt (modifyAt l i f) i g = modifyAt l i (fun a => g (f a)) := by
  induction l generalizing i with
  | nil => rfl
  | cons a l ih =>
    cases i with
    | zero => rfl
    | succ n =>
      simp only [modifyAt]
      rw [ih]

theorem modifyAt_apply_congr (l : List GpuTexture) (i : Nat) (f g : GpuTexture → GpuTexture)
    (h : f (nthTex l i) = g (nthTex l i)) : modifyAt l i f = modifyAt l i g := by
  induction l generalizing i with
  | nil => rfl
  | cons a l ih =>
    cases i with
    | zero =>
      simp only [modifyAt]
      rw [show f a = g a from h]
    | succ n =>
      simp only [modifyAt]
      rw [ih n h]

theorem pool_ext (p q : TexturePool) (h1 : p.m_textures = q.m_textures)
    (h2 : p.m_mt4hh_textures = q.m_mt4hh_textures)
    (h3 : p.m_loaded_textures = q.m_loaded_textures) : p = q := by
  cases p
  cases q
  simp_all

end TexPool

namespace TexPool

theorem detach_char (p : TexturePool) (nm : String) (id i : Nat)
    (hf : findName p nm = some i) (hi : i < p.m_loaded_textures.length)
    (hany : (texAt p i).gpu_textures.any (fun d => d.gl == id) = true) :
    (step p (Op.detach nm id)).m_loaded_textures =
      modifyAt p.m_loaded_textures i
        (fun t => { t with gpu_textures := removeFirstHandle id t.gpu_textures }) ∧
    (∀ a, (step p (Op.detach nm id)).m_textures a =
      if a ∈ (texAt p i).slots then
        ⟨canonicalHandle ({ texAt p i with
            gpu_textures := removeFirstHandle id (texAt p i).gpu_textures }),
          (p.m_textures a).source⟩
      else p.m_textures a) ∧
    (step p (Op.detach nm id)).m_mt4hh_textures =
      p.m_mt4hh_textures.map (fun e =>
        if e.slot ∈ (texAt p i).mt4hh_slots ∧ e.ref.source = some i then
          ⟨⟨canonicalHandle ({ texAt p i with
              gpu_textures := removeFirstHandle id (texAt p i).gpu_textures }),
            e.ref.source⟩, e.slot⟩
        else e) := by
  have hstep : step p (Op.detach nm id) =
      refresh_links
        (modifyReg p i fun t => { t with gpu_textures := removeFirstHandle id t.gpu_textures })
        i := by
    show unload_texture p nm id = _
    exact unload_found p nm id i hf hany
  have htex : texAt
      (modifyReg p i fun t => { t with gpu_textures := removeFirstHandle id t.gpu_textures }) i =
      { texAt p i with gpu_textures := removeFirstHandle id (texAt p i).gpu_textures } :=
    texAt_modifyReg_self p i _ hi
  refine ⟨?_, ?_, ?_⟩
  · rw [hstep]
    rfl
  · intro a
    rw [hstep, refresh_m_textures, htex]
    rfl
  · rw [hstep, refresh_mt4hh, htex]
    rfl

/-- C3.  Detach emptying the instance list relinks to the placeholder
but preserves the identity: in a reachable state, detaching the single
loaded instance of an identity makes every slot recorded on the
identity resolve to the global placeholder handle with its
back-reference unchanged (still this identity), makes every paired
side-table entry of this identity resolve to the placeholder handle,
and keeps the identity queryable by name at the same index. -/
theorem claim3_detach_last_instance (p : TexturePool)
    (hreach : ∃ ops, p = run initPool ops) (nm : String) (hnd i : Nat)
    (hf : findName p nm = some i)
    (hinst : (texAt p i).gpu_textures = [⟨hnd⟩]) :
    (∀ a ∈ (texAt p i).slots,
      lookup (step p (Op.detach nm hnd)) a = some placeholderId ∧
      ((step p (Op.detach nm hnd)).m_textures a).source = (p.m_textures a).source ∧
      (p.m_textures a).source = some i) ∧
    (∀ e ∈ (step p (Op.detach nm hnd)).m_mt4hh_textures,
      e.slot ∈ (texAt p i).mt4hh_slots → e.ref.source = some i →
        e.ref.gpu_texture = placeholderId) ∧
    findName (step p (Op.detach nm hnd)) nm = some i := by
  have hInv : Inv p := by
    obtain ⟨ops, rfl⟩ := hreach
    exact inv_run initPool ops inv_initPool
  have hi : i < p.m_loaded_textures.length := findIdxFrom_some_lt _ _ _ hf
  have hany : (texAt p i).gpu_textures.any (fun d => d.gl == hnd) = true := by
    rw [hinst]
    simp
  obtain ⟨hreg, hvram, hmt⟩ := detach_char p nm hnd i hf hi hany
  have hrem : removeFirstHandle hnd (texAt p i).gpu_textures = [] := by
    rw [hinst]
    simp [removeFirstHandle]
  have hcanon : canonicalHandle ({ texAt p i with
      gpu_textures := removeFirstHandle hnd (texAt p i).gpu_textures }) = placeholderId :=
    (canonicalHandle_congr _ dummyTex hrem).trans rfl
  refine ⟨?_, ?_, ?_⟩
  · intro a ha
    have hsa : (p.m_textures a).source = some i := (hInv.1 a i hi).mp ha
    have hva : (step p (Op.detach nm hnd)).m_textures a = ⟨placeholderId, some i⟩ := by
      rw [hvram a, if_pos ha, hsa, hcanon]
    refine ⟨?_, ?_, hsa⟩
    · unfold lookup
      rw [hva]
    · rw [hva, hsa]
  · intro e he hslot hsrc2
    rw [hmt] at he
    obtain ⟨e0, he0, rfl⟩ := List.mem_map.mp he
    by_cases hc : e0.slot ∈ (texAt p i).mt4hh_slots ∧ e0.ref.source = some i
    · rw [if_pos hc]
      exact hcanon
    · rw [if_neg hc] at hslot hsrc2
      exact absurd ⟨hslot, hsrc2⟩ hc
  · have hsu : step p (Op.detach nm hnd) = unload_texture p nm hnd := rfl
    rw [hsu, findName_unload]
    exact hf

theorem claim3_witness :
    (∀ a ∈ (texAt (run initPool
        [Op.upload "tex" [5] true, Op.register ⟨"tex", 7, false, 1, 2, 2⟩]) 0).slots,
      lookup (step (run initPool
          [Op.upload "tex" [5] true, Op.register ⟨"tex", 7, false, 1, 2, 2⟩])
        (Op.detach "tex" 7)) a = some placeholderId ∧
      ((step (run initPool
          [Op.upload "tex" [5] true, Op.register ⟨"tex", 7, false, 1, 2, 2⟩])
        (Op.detach "tex" 7)).m_textures a).source =
        ((run initPool
          [Op.upload "tex" [5] true, Op.register ⟨"tex", 7, false, 1, 2, 2⟩]).m_textures
            a).source ∧
      ((run initPool
          [Op.upload "tex" [5] true, Op.register ⟨"tex", 7, false, 1, 2, 2⟩]).m_textures
            a).source = some 0) ∧
    (∀ e ∈ (step (run initPool
        [Op.upload "tex" [5] true, Op.register ⟨"tex", 7, false, 1, 2, 2⟩])
        (Op.detach "tex" 7)).m_mt4hh_textures,
      e.slot ∈ (texAt (run initPool
        [Op.upload "tex" [5] true, Op.register ⟨"tex", 7, false, 1, 2, 2⟩]) 0).mt4hh_slots →
      e.ref.source = some 0 → e.ref.gpu_texture = placeholderId) ∧
    findName (step (run initPool
        [Op.upload "tex" [5] true, Op.register ⟨"tex", 7, false, 1, 2, 2⟩])
      (Op.detach "tex" 7)) "tex" = some 0 :=
  claim3_detach_last_instance
    (run initPool [Op.upload "tex" [5] true, Op.register ⟨"tex", 7, false, 1, 2, 2⟩])
    ⟨[Op.upload "tex" [5] true, Op.register ⟨"tex", 7, false, 1, 2, 2⟩], rfl⟩
    "tex" 7 0 (by decide) (by decide)

end TexPool

namespace TexPool

theorem relocate_aux_m_textures_hit (p : TexturePool) (dst src n : Nat) (q : TexturePool)
    (k : Nat) (hk : k < n) (i : Nat) (hsome : (p.m_textures (src + k)).source = some i) :
    (relocate_aux p dst src n q).m_textures (dst + k) = p.m_textures (src + k) := by
  induction n with
  | zero => omega
  | succ m ih =>
    by_cases hkm : k = m
    · subst hkm
      simp only [relocate_aux, hsome]
      rw [writeSlot_m_textures, if_pos rfl]
      have heta : p.m_textures (src + k) =
          ⟨(p.m_textures (src + k)).gpu_texture, (p.m_textures (src + k)).source⟩ := rfl
      conv_rhs => rw [heta]
      rw [hsome]
    · have hk' : k < m := by omega
      cases hsrc : (p.m_textures (src + m)).source with
      | none =>
        simp only [relocate_aux, hsrc]
        exact ih hk'
      | some j =>
        simp only [relocate_aux, hsrc]
        rw [writeSlot_m_textures, if_neg (by omega)]
        exact ih hk'

theorem relocate_aux_m_textures_miss (p : TexturePool) (dst src n : Nat) (q : TexturePool)
    (b : Nat) (hb : ∀ k, k < n → b ≠ dst + k) :
    (relocate_aux p dst src n q).m_textures b = q.m_textures b := by
  induction n with
  | zero => rfl
  | succ m ih =>
    cases hsrc : (p.m_textures (src + m)).source with
    | none =>
      simp only [relocate_aux, hsrc]
      exact ih (fun k hk => hb k (by omega))
    | some i =>
      simp only [relocate_aux, hsrc]
      rw [writeSlot_m_textures, if_neg (hb m (by omega))]
      exact ih (fun k hk => hb k (by omega))

/-- C6.  Copy correctness and slot independence: in a reachable state,
after a simulated VRAM copy over a block range whose source blocks are
written and do not overlap the destination range, lookup and
lookup_gpu_texture agree between each destination and source block; the
destination block is recorded on the identity's own slot list; and a
subsequent detach of the identity's single instance relinks the
destination block to the placeholder handle with its back-reference
still the identity (no dependence on the source slot). -/
theorem claim6_copy_correct_and_independent (p : TexturePool)
    (hreach : ∃ ops, p = run initPool ops) (dst src n : Nat)
    (hdisj : ∀ k, k < n → ∀ j, j < n → src + k ≠ dst + j)
    (hsrc : ∀ k, k < n → ((p.m_textures (src + k)).source).isSome = true) :
    (∀ k, k < n →
      lookup (step p (Op.copy dst src n)) (dst + k) =
        lookup (step p (Op.copy dst src n)) (src + k) ∧
      lookup_gpu_texture (step p (Op.copy dst src n)) (dst + k) =
        lookup_gpu_texture (step p (Op.copy dst src n)) (src + k)) ∧
    (∀ k i, k < n → (p.m_textures (src + k)).source = some i →
      (dst + k) ∈ (texAt (step p (Op.copy dst src n)) i).slots) ∧
    (∀ k i nm hnd, k < n → (p.m_textures (src + k)).source = some i →
      findName p nm = some i → (texAt p i).gpu_textures = [⟨hnd⟩] →
      lookup (step (step p (Op.copy dst src n)) (Op.detach nm hnd)) (dst + k) =
        some placeholderId ∧
      ((step (step p (Op.copy dst src n)) (Op.detach nm hnd)).m_textures
        (dst + k)).source = some i) := by
  have hInv : Inv p := by
    obtain ⟨ops, rfl⟩ := hreach
    exact inv_run initPool ops inv_initPool
  have hstep : step p (Op.copy dst src n) = relocate_aux p dst src n p := rfl
  have hInv' : Inv (step p (Op.copy dst src n)) := inv_step p _ hInv
  have hhit : ∀ k i, k < n → (p.m_textures (src + k)).source = some i →
      (step p (Op.copy dst src n)).m_textures (dst + k) = p.m_textures (src + k) := by
    intro k i hk hs
    rw [hstep]
    exact relocate_aux_m_textures_hit p dst src n p k hk i hs
  have hmiss : ∀ k, k < n →
      (step p (Op.copy dst src n)).m_textures (src + k) = p.m_textures (src + k) := by
    intro k hk
    rw [hstep]
    exact relocate_aux_m_textures_miss p dst src n p (src + k) (fun j hj => hdisj k hk j hj)
  have hsrcp : ∀ k i, k < n → (p.m_textures (src + k)).source = some i →
      ((step p (Op.copy dst src n)).m_textures (dst + k)).source = some i := by
    intro k i hk hs
    rw [hhit k i hk hs]
    exact hs
  have hslotmem : ∀ k i, k < n → (p.m_textures (src + k)).source = some i →
      (dst + k) ∈ (texAt (step p (Op.copy dst src n)) i).slots := by
    intro k i hk hs
    have h1 := hsrcp k i hk hs
    obtain ⟨hilt, _⟩ := hInv'.2 (dst + k) i h1
    exact (hInv'.1 (dst + k) i hilt).mpr h1
  refine ⟨?_, hslotmem, ?_⟩
  · intro k hk
    obtain ⟨i, hi⟩ := Option.isSome_iff_exists.mp (hsrc k hk)
    have hv : (step p (Op.copy dst src n)).m_textures (dst + k) =
        (step p (Op.copy dst src n)).m_textures (src + k) :=
      (hhit k i hk hi).trans (hmiss k hk).symm
    constructor
    · unfold lookup
      rw [hv]
    · unfold lookup_gpu_texture
      rw [hv]
  · intro k i nm hnd hk hs hf hinst
    have hilt0 : i < p.m_loaded_textures.length := (hInv.2 (src + k) i hs).1
    have hlen' : (step p (Op.copy dst src n)).m_loaded_textures.length =
        p.m_loaded_textures.length := by
      rw [hstep]
      exact relocate_aux_length p dst src n p
    have hfn' : findName (step p (Op.copy dst src n)) nm = some i := by
      rw [hstep, findName_relocate_aux]
      exact hf
    have hgt' : (texAt (step p (Op.copy dst src n)) i).gpu_textures = [⟨hnd⟩] := by
      rw [hstep, relocate_aux_gpu_textures p dst src n p i hilt0]
      exact hinst
    have hany' : ((texAt (step p (Op.copy dst src n)) i).gpu_textures.any
        (fun d => d.gl == hnd)) = true := by
      rw [hgt']
      simp
    obtain ⟨_, hvram', _⟩ := detach_char (step p (Op.copy dst src n)) nm hnd i hfn'
      (by rw [hlen']; exact hilt0) hany'
    have hcanon' : canonicalHandle ({ texAt (step p (Op.copy dst src n)) i with
        gpu_textures := removeFirstHandle hnd
          (texAt (step p (Op.copy dst src n)) i).gpu_textures }) = placeholderId := by
      refine (canonicalHandle_congr _ dummyTex ?_).trans rfl
      show removeFirstHandle hnd (texAt (step p (Op.copy dst src n)) i).gpu_textures = []
      rw [hgt']
      simp [removeFirstHandle]
    have hva : (step (step p (Op.copy dst src n)) (Op.detach nm hnd)).m_textures (dst + k) =
        ⟨placeholderId, some i⟩ := by
      rw [hvram' (dst + k), if_pos (hslotmem k i hk hs), hsrcp k i hk hs, hcanon']
    constructor
    · unfold lookup
      rw [hva]
    · rw [hva]

/-- Concrete reachable pool used by the C6 witness: one texture "tex"
uploaded to slot 3 and then registered with handle 7. -/
def samplePool : TexturePool :=
  run initPool [Op.upload "tex" [3] false, Op.register ⟨"tex", 7, false, 1, 2, 2⟩]

theorem claim6_witness :
    (∀ k, k < 1 →
      lookup (step samplePool (Op.copy 9 3 1)) (9 + k) =
        lookup (step samplePool (Op.copy 9 3 1)) (3 + k) ∧
      lookup_gpu_texture (step samplePool (Op.copy 9 3 1)) (9 + k) =
        lookup_gpu_texture (step samplePool (Op.copy 9 3 1)) (3 + k)) ∧
    (∀ k i, k < 1 → (samplePool.m_textures (3 + k)).source = some i →
      (9 + k) ∈ (texAt (step samplePool (Op.copy 9 3 1)) i).slots) ∧
    (∀ k i nm hnd, k < 1 → (samplePool.m_textures (3 + k)).source = some i →
      findName samplePool nm = some i → (texAt samplePool i).gpu_textures = [⟨hnd⟩] →
      lookup (step (step samplePool (Op.copy 9 3 1)) (Op.detach nm hnd)) (9 + k) =
        some placeholderId ∧
      ((step (step samplePool (Op.copy 9 3 1)) (Op.detach nm hnd)).m_textures
        (9 + k)).source = some i) :=
  claim6_copy_correct_and_independent samplePool
    ⟨[Op.upload "tex" [3] false, Op.register ⟨"tex", 7, false, 1, 2, 2⟩], rfl⟩
    9 3 1 (by decide) (by decide)

end TexPool

namespace TexPool

/-- C5.  Unknown-name upload degrades to a placeholder: in a reachable
state, uploading a descriptor whose name was never registered creates a
placeholder identity (zero instances) for that name at the next registry
index, writes the global placeholder handle and a back-reference to that
identity into every destination slot, and a later register of the same
name attaches an instance to that same identity (no new identity) and
relinks the already-linked slots to the newly attached instance's
handle. -/
theorem claim5_unknown_upload_placeholder (p : TexturePool)
    (hreach : ∃ ops, p = run initPool ops) (nm : String) (dests : List Nat) (paired : Bool)
    (inp : TextureInput) (hname : inp.name = nm) (hnone : findName p nm = none) :
    findName (step p (Op.upload nm dests paired)) nm = some p.m_loaded_textures.length ∧
    (texAt (step p (Op.upload nm dests paired))
      p.m_loaded_textures.length).gpu_textures = [] ∧
    (∀ a ∈ dests, (step p (Op.upload nm dests paired)).m_textures a =
      ⟨placeholderId, some p.m_loaded_textures.length⟩) ∧
    (step (step p (Op.upload nm dests paired))
        (Op.register inp)).m_loaded_textures.length =
      (step p (Op.upload nm dests paired)).m_loaded_textures.length ∧
    (texAt (step (step p (Op.upload nm dests paired)) (Op.register inp))
      p.m_loaded_textures.length).gpu_textures = [⟨inp.gpu_texture⟩] ∧
    (∀ a ∈ dests,
      (step (step p (Op.upload nm dests paired)) (Op.register inp)).m_textures a =
        ⟨inp.gpu_texture, some p.m_loaded_textures.length⟩) := by
  have hInv : Inv p := by
    obtain ⟨ops, rfl⟩ := hreach
    exact inv_run initPool ops inv_initPool
  have hgoc : getOrCreateTex p (placeholderTexture nm) =
      ({ p with m_loaded_textures := p.m_loaded_textures ++ [placeholderTexture nm] },
        p.m_loaded_textures.length) := by
    unfold getOrCreateTex
    have h' : findName p (placeholderTexture nm).name = none := hnone
    rw [h']
  have hstep1 : step p (Op.upload nm dests paired) =
      writeSlots p.m_loaded_textures.length paired dests
        { p with m_loaded_textures := p.m_loaded_textures ++ [placeholderTexture nm] } := by
    show upload_one_descriptor p nm dests paired = _
    unfold upload_one_descriptor
    rw [hgoc]
  have hlenA : ({ p with
      m_loaded_textures := p.m_loaded_textures ++ [placeholderTexture nm] } :
        TexturePool).m_loaded_textures.length = p.m_loaded_textures.length + 1 := by
    simp
  have hLlt : p.m_loaded_textures.length < ({ p with
      m_loaded_textures := p.m_loaded_textures ++ [placeholderTexture nm] } :
        TexturePool).m_loaded_textures.length := by
    rw [hlenA]
    omega
  have htexA : texAt ({ p with
      m_loaded_textures := p.m_loaded_textures ++ [placeholderTexture nm] } : TexturePool)
      p.m_loaded_textures.length = placeholderTexture nm := nthTex_append_len _ _
  have hfnA : findName ({ p with
      m_loaded_textures := p.m_loaded_textures ++ [placeholderTexture nm] } : TexturePool)
      nm = some p.m_loaded_textures.length := by
    show findIdxFrom nm (p.m_loaded_textures ++ [placeholderTexture nm]) = _
    rw [findIdxFrom_append_none nm _ _ hnone]
    simp [placeholderTexture]
  have hcanA : canonicalHandle (texAt ({ p with
      m_loaded_textures := p.m_loaded_textures ++ [placeholderTexture nm] } : TexturePool)
      p.m_loaded_textures.length) = placeholderId := by
    rw [htexA]
    rfl
  have hfn1 : findName (step p (Op.upload nm dests paired)) nm =
      some p.m_loaded_textures.length := by
    rw [hstep1, findName_writeSlots]
    exact hfnA
  have hgt1 : (texAt (step p (Op.upload nm dests paired))
      p.m_loaded_textures.length).gpu_textures = [] := by
    rw [hstep1, writeSlots_gpu_textures _ _ _ _ _ hLlt, htexA]
    rfl
  have hvram1 : ∀ a, (step p (Op.upload nm dests paired)).m_textures a =
      if a ∈ dests then ⟨placeholderId, some p.m_loaded_textures.length⟩
      else p.m_textures a := by
    intro a
    rw [hstep1, writeSlots_m_textures_full _ _ _ _ _ hLlt, hcanA]
  have hlen1 : (step p (Op.upload nm dests paired)).m_loaded_textures.length =
      p.m_loaded_textures.length + 1 := by
    rw [hstep1, writeSlots_length, hlenA]
  have hInv1 : Inv (step p (Op.upload nm dests paired)) := inv_step p _ hInv
  have hgoc2 : getOrCreateTex (step p (Op.upload nm dests paired)) (inputTexture inp) =
      (step p (Op.upload nm dests paired), p.m_loaded_textures.length) := by
    unfold getOrCreateTex
    have h' : findName (step p (Op.upload nm dests paired)) (inputTexture inp).name =
        some p.m_loaded_textures.length := by
      show findName (step p (Op.upload nm dests paired)) inp.name = _
      rw [hname]
      exact hfn1
    rw [h']
  have hstep2 : step (step p (Op.upload nm dests paired)) (Op.register inp) =
      refresh_links
        (modifyReg (step p (Op.upload nm dests paired)) p.m_loaded_textures.length
          fun t => { t with gpu_textures := t.gpu_textures ++ [⟨inp.gpu_texture⟩] })
        p.m_loaded_textures.length := by
    show give_texture _ inp = _
    unfold give_texture give_texture_core
    rw [hgoc2]
  have htex2 : texAt
      (modifyReg (step p (Op.upload nm dests paired)) p.m_loaded_textures.length
        fun t => { t with gpu_textures := t.gpu_textures ++ [⟨inp.gpu_texture⟩] })
      p.m_loaded_textures.length =
      { texAt (step p (Op.upload nm dests paired)) p.m_loaded_textures.length with
        gpu_textures := (texAt (step p (Op.upload nm dests paired))
          p.m_loaded_textures.length).gpu_textures ++ [⟨inp.gpu_texture⟩] } :=
    texAt_modifyReg_self _ _ _ (by omega)
  have hgt2 : (texAt (step (step p (Op.upload nm dests paired)) (Op.register inp))
      p.m_loaded_textures.length).gpu_textures = [⟨inp.gpu_texture⟩] := by
    rw [hstep2]
    have hrfl : texAt
        (refresh_links
          (modifyReg (step p (Op.upload nm dests paired)) p.m_loaded_textures.length
            fun t => { t with gpu_textures := t.gpu_textures ++ [⟨inp.gpu_texture⟩] })
          p.m_loaded_textures.length)
        p.m_loaded_textures.length =
        texAt
          (modifyReg (step p (Op.upload nm dests paired)) p.m_loaded_textures.length
            fun t => { t with gpu_textures := t.gpu_textures ++ [⟨inp.gpu_texture⟩] })
          p.m_loaded_textures.length := rfl
    rw [hrfl, htex2]
    show (texAt (step p (Op.upload nm dests paired))
      p.m_loaded_textures.length).gpu_textures ++ [⟨inp.gpu_texture⟩] = _
    rw [hgt1]
    rfl
  refine ⟨hfn1, hgt1, ?_, ?_, hgt2, ?_⟩
  · intro a ha
    rw [hvram1 a, if_pos ha]
  · rw [hstep2]
    simp only [refresh_reg, modifyReg_length]
  · intro a ha
    have hsrc1a : ((step p (Op.upload nm dests paired)).m_textures a).source =
        some p.m_loaded_textures.length := by
      rw [hvram1 a, if_pos ha]
    have hmem1 : a ∈ (texAt (step p (Op.upload nm dests paired))
        p.m_loaded_textures.length).slots :=
      (hInv1.1 a p.m_loaded_textures.length (by omega)).mpr hsrc1a
    have hmem2 : a ∈ (texAt
        (modifyReg (step p (Op.upload nm dests paired)) p.m_loaded_textures.length
          fun t => { t with gpu_textures := t.gpu_textures ++ [⟨inp.gpu_texture⟩] })
        p.m_loaded_textures.length).slots := by
      rw [texAt_modifyReg_slots (step p (Op.upload nm dests paired))
        p.m_loaded_textures.length
        (fun t => { t with gpu_textures := t.gpu_textures ++ [⟨inp.gpu_texture⟩] })
        (fun t => rfl)]
      exact hmem1
    rw [hstep2, refresh_m_textures, if_pos hmem2]
    have hcan2 : canonicalHandle (texAt
        (modifyReg (step p (Op.upload nm dests paired)) p.m_loaded_textures.length
          fun t => { t with gpu_textures := t.gpu_textures ++ [⟨inp.gpu_texture⟩] })
        p.m_loaded_textures.length) = inp.gpu_texture := by
      refine (canonicalHandle_congr _
        (⟨"", [⟨inp.gpu_texture⟩], [], [], 0, 0, 0, false⟩ : GpuTexture) ?_).trans rfl
      rw [htex2]
      show (texAt (step p (Op.upload nm dests paired))
        p.m_loaded_textures.length).gpu_textures ++ [⟨inp.gpu_texture⟩] = _
      rw [hgt1]
      rfl
    rw [hcan2]
    have hsrcr : ((modifyReg (step p (Op.upload nm dests paired))
        p.m_loaded_textures.length
        fun t => { t with gpu_textures := t.gpu_textures ++ [⟨inp.gpu_texture⟩] }).m_textures
          a).source = some p.m_loaded_textures.length := hsrc1a
    rw [hsrcr]

theorem claim5_witness :
    findName (step initPool (Op.upload "tex" [3, 4] false)) "tex" = some 0 ∧
    (texAt (step initPool (Op.upload "tex" [3, 4] false)) 0).gpu_textures = [] ∧
    (∀ a ∈ [3, 4], (step initPool (Op.upload "tex" [3, 4] false)).m_textures a =
      ⟨placeholderId, some 0⟩) ∧
    (step (step initPool (Op.upload "tex" [3, 4] false))
        (Op.register ⟨"tex", 7, false, 1, 2, 2⟩)).m_loaded_textures.length =
      (step initPool (Op.upload "tex" [3, 4] false)).m_loaded_textures.length ∧
    (texAt (step (step initPool (Op.upload "tex" [3, 4] false))
        (Op.register ⟨"tex", 7, false, 1, 2, 2⟩)) 0).gpu_textures = [⟨7⟩] ∧
    (∀ a ∈ [3, 4],
      (step (step initPool (Op.upload "tex" [3, 4] false))
        (Op.register ⟨"tex", 7, false, 1, 2, 2⟩)).m_textures a = ⟨7, some 0⟩) :=
  claim5_unknown_upload_placeholder initPool ⟨[], rfl⟩ "tex" [3, 4] false
    ⟨"tex", 7, false, 1, 2, 2⟩ rfl (by decide)

end TexPool

namespace TexPool

theorem map_detach_twice (S : List Nat) (i c1 c2 : Nat) (L : List Mt4hhTexture) :
    (L.map (fun e => if e.slot ∈ S ∧ e.ref.source = some i then
        (⟨⟨c1, e.ref.source⟩, e.slot⟩ : Mt4hhTexture) else e)).map
      (fun e => if e.slot ∈ S ∧ e.ref.source = some i then
        (⟨⟨c2, e.ref.source⟩, e.slot⟩ : Mt4hhTexture) else e) =
    L.map (fun e => if e.slot ∈ S ∧ e.ref.source = some i then
      (⟨⟨c2, e.ref.source⟩, e.slot⟩ : Mt4hhTexture) else e) := by
  induction L with
  | nil => rfl
  | cons e L ih =>
    simp only [List.map_cons, ih]
    by_cases hc : e.slot ∈ S ∧ e.ref.source = some i <;> simp [hc]

/-- C7.  Unload order independence with duplicate loads: in a reachable
state where an identity holds exactly two loaded instances, detaching
either one leaves the identity with the other instance and every slot
recorded on the identity resolving to that remaining instance's handle
(order-preserving promotion); after both detaches the instance list is
empty and every such slot resolves to the placeholder handle; and the
final state is identical regardless of detach order. -/
theorem claim7_unload_order_independence (p : TexturePool)
    (hreach : ∃ ops, p = run initPool ops) (nm : String) (h1 h2 i : Nat)
    (hf : findName p nm = some i)
    (hinst : (texAt p i).gpu_textures = [⟨h1⟩, ⟨h2⟩]) :
    ((texAt (step p (Op.detach nm h1)) i).gpu_textures = [⟨h2⟩] ∧
      ∀ a ∈ (texAt p i).slots, lookup (step p (Op.detach nm h1)) a = some h2) ∧
    ((texAt (step p (Op.detach nm h2)) i).gpu_textures = [⟨h1⟩] ∧
      ∀ a ∈ (texAt p i).slots, lookup (step p (Op.detach nm h2)) a = some h1) ∧
    ((texAt (step (step p (Op.detach nm h1)) (Op.detach nm h2)) i).gpu_textures = [] ∧
      ∀ a ∈ (texAt p i).slots,
        lookup (step (step p (Op.detach nm h1)) (Op.detach nm h2)) a =
          some placeholderId) ∧
    step (step p (Op.detach nm h1)) (Op.detach nm h2) =
      step (step p (Op.detach nm h2)) (Op.detach nm h1) := by
  have hInv : Inv p := by
    obtain ⟨ops, rfl⟩ := hreach
    exact inv_run initPool ops inv_initPool
  have hi : i < p.m_loaded_textures.length := findIdxFrom_some_lt _ _ _ hf
  have hanyOf : ∀ x z : Nat, removeFirstHandle x (texAt p i).gpu_textures = [⟨z⟩] →
      (texAt p i).gpu_textures.any (fun d => d.gl == x) = true := by
    intro x z hxz
    rw [hinst]
    by_cases hx1 : h1 = x
    · simp [hx1]
    · by_cases hx2 : h2 = x
      · simp [hx2]
      · rw [hinst] at hxz
        simp [removeFirstHandle, hx1, hx2] at hxz
  have single : ∀ x z : Nat, removeFirstHandle x (texAt p i).gpu_textures = [⟨z⟩] →
      (texAt (step p (Op.detach nm x)) i).gpu_textures = [⟨z⟩] ∧
      ∀ a ∈ (texAt p i).slots, lookup (step p (Op.detach nm x)) a = some z := by
    intro x z hxz
    obtain ⟨hreg1, hvram1, _⟩ := detach_char p nm x i hf hi (hanyOf x z hxz)
    have htex1 : texAt (step p (Op.detach nm x)) i =
        { texAt p i with gpu_textures := [⟨z⟩] } := by
      show nthTex (step p (Op.detach nm x)).m_loaded_textures i = _
      rw [hreg1, nthTex_modifyAt_self _ _ _ hi]
      show ({ nthTex p.m_loaded_textures i with
        gpu_textures := removeFirstHandle x (nthTex p.m_loaded_textures i).gpu_textures }) = _
      rw [show removeFirstHandle x (nthTex p.m_loaded_textures i).gpu_textures = [⟨z⟩]
        from hxz]
      rfl
    constructor
    · rw [htex1]
    · intro a ha
      have hsa : (p.m_textures a).source = some i := (hInv.1 a i hi).mp ha
      have hcanz : canonicalHandle ({ texAt p i with
          gpu_textures := removeFirstHandle x (texAt p i).gpu_textures }) = z :=
        (canonicalHandle_congr _ (⟨"", [⟨z⟩], [], [], 0, 0, 0, false⟩ : GpuTexture) hxz).trans
          rfl
      have hva : (step p (Op.detach nm x)).m_textures a = ⟨z, some i⟩ := by
        rw [hvram1 a, if_pos ha, hsa, hcanz]
      unfold lookup
      rw [hva]
  have double : ∀ x y z : Nat,
      removeFirstHandle x (texAt p i).gpu_textures = [⟨z⟩] →
      removeFirstHandle y [(⟨z⟩ : TextureData)] = [] →
      step (step p (Op.detach nm x)) (Op.detach nm y) =
        ⟨fun a => if a ∈ (texAt p i).slots then ⟨placeholderId, (p.m_textures a).source⟩
            else p.m_textures a,
          p.m_mt4hh_textures.map (fun e =>
            if e.slot ∈ (texAt p i).mt4hh_slots ∧ e.ref.source = some i then
              ⟨⟨placeholderId, e.ref.source⟩, e.slot⟩
            else e),
          modifyAt p.m_loaded_textures i (fun t => { t with gpu_textures := [] })⟩ := by
    intro x y z hxz hyz
    obtain ⟨hreg1, hvram1, hmt1⟩ := detach_char p nm x i hf hi (hanyOf x z hxz)
    have hlen1 : (step p (Op.detach nm x)).m_loaded_textures.length =
        p.m_loaded_textures.length := by
      rw [hreg1, length_modifyAt]
    have hfn1 : findName (step p (Op.detach nm x)) nm = some i := by
      show findName (unload_texture p nm x) nm = _
      rw [findName_unload]
      exact hf
    have htex1 : texAt (step p (Op.detach nm x)) i =
        { texAt p i with gpu_textures := [⟨z⟩] } := by
      show nthTex (step p (Op.detach nm x)).m_loaded_textures i = _
      rw [hreg1, nthTex_modifyAt_self _ _ _ hi]
      show ({ nthTex p.m_loaded_textures i with
        gpu_textures := removeFirstHandle x (nthTex p.m_loaded_textures i).gpu_textures }) = _
      rw [show removeFirstHandle x (nthTex p.m_loaded_textures i).gpu_textures = [⟨z⟩]
        from hxz]
      rfl
    have hany2 : (texAt (step p (Op.detach nm x)) i).gpu_textures.any
        (fun d => d.gl == y) = true := by
      rw [htex1]
      show ([(⟨z⟩ : TextureData)].any fun d => d.gl == y) = true
      by_cases hzy : z = y
      · simp [hzy]
      · simp [removeFirstHandle, hzy] at hyz
    have hi1 : i < (step p (Op.detach nm x)).m_loaded_textures.length := by
      rw [hlen1]
      exact hi
    obtain ⟨hreg2, hvram2, hmt2⟩ := detach_char (step p (Op.detach nm x)) nm y i hfn1 hi1
      hany2
    have hcan2 : canonicalHandle ({ texAt (step p (Op.detach nm x)) i with
        gpu_textures :=
          removeFirstHandle y (texAt (step p (Op.detach nm x)) i).gpu_textures }) =
        placeholderId := by
      refine (canonicalHandle_congr _ dummyTex ?_).trans rfl
      show removeFirstHandle y (texAt (step p (Op.detach nm x)) i).gpu_textures = []
      rw [htex1]
      exact hyz
    have hslots1 : (texAt (step p (Op.detach nm x)) i).slots = (texAt p i).slots := by
      rw [htex1]
    have hmtsl1 : (texAt (step p (Op.detach nm x)) i).mt4hh_slots =
        (texAt p i).mt4hh_slots := by
      rw [htex1]
    apply pool_ext
    · funext a
      show (step (step p (Op.detach nm x)) (Op.detach nm y)).m_textures a =
        if a ∈ (texAt p i).slots then ⟨placeholderId, (p.m_textures a).source⟩
        else p.m_textures a
      rw [hvram2 a, hslots1, hcan2]
      by_cases ha : a ∈ (texAt p i).slots
      · rw [if_pos ha, if_pos ha]
        have hsrc1 : ((step p (Op.detach nm x)).m_textures a).source =
            (p.m_textures a).source := by
          rw [hvram1 a, if_pos ha]
        rw [hsrc1]
      · rw [if_neg ha, if_neg ha, hvram1 a, if_neg ha]
    · show (step (step p (Op.detach nm x)) (Op.detach nm y)).m_mt4hh_textures = _
      rw [hmt2, hmt1]
      simp only [hcan2]
      simp only [hmtsl1]
      exact map_detach_twice (texAt p i).mt4hh_slots i _ placeholderId p.m_mt4hh_textures
    · show (step (step p (Op.detach nm x)) (Op.detach nm y)).m_loaded_textures =
        modifyAt p.m_loaded_textures i fun t => { t with gpu_textures := [] }
      rw [hreg2, hreg1, modifyAt_modifyAt]
      apply modifyAt_apply_congr
      show ({ nthTex p.m_loaded_textures i with
        gpu_textures := removeFirstHandle y
          (removeFirstHandle x (nthTex p.m_loaded_textures i).gpu_textures) }) =
        { nthTex p.m_loaded_textures i with gpu_textures := [] }
      rw [show removeFirstHandle x (nthTex p.m_loaded_textures i).gpu_textures = [⟨z⟩]
        from hxz, hyz]
  have e1 : removeFirstHandle h1 (texAt p i).gpu_textures = [⟨h2⟩] := by
    rw [hinst]
    simp [removeFirstHandle]
  have e2 : removeFirstHandle h2 (texAt p i).gpu_textures = [⟨h1⟩] := by
    rw [hinst]
    by_cases hh : h1 = h2 <;> simp [removeFirstHandle, hh]
  have e12 : removeFirstHandle h2 [(⟨h2⟩ : TextureData)] = [] := by
    simp [removeFirstHandle]
  have e21 : removeFirstHandle h1 [(⟨h1⟩ : TextureData)] = [] := by
    simp [removeFirstHandle]
  have hD1 := double h1 h2 h2 e1 e12
  have hD2 := double h2 h1 h1 e2 e21
  have htgt_vram : ∀ a, a ∈ (texAt p i).slots →
      (step (step p (Op.detach nm h1)) (Op.detach nm h2)).m_textures a =
        ⟨placeholderId, some i⟩ := by
    intro a ha
    rw [hD1]
    show (if a ∈ (texAt p i).slots then
      (⟨placeholderId, (p.m_textures a).source⟩ : TextureVRAMReference)
      else p.m_textures a) = _
    rw [if_pos ha, (hInv.1 a i hi).mp ha]
  refine ⟨single h1 h2 e1, single h2 h1 e2, ⟨?_, ?_⟩, hD1.trans hD2.symm⟩
  · show (nthTex (step (step p (Op.detach nm h1))
      (Op.detach nm h2)).m_loaded_textures i).gpu_textures = []
    rw [hD1]
    show (nthTex (modifyAt p.m_loaded_textures i fun t => { t with gpu_textures := [] })
      i).gpu_textures = []
    rw [nthTex_modifyAt_self _ _ _ hi]
  · intro a ha
    unfold lookup
    rw [htgt_vram a ha]

/-- Concrete reachable pool used by the C7 witness: one texture "tex"
uploaded to slot 4 (paired) and registered twice with handles 5 and
7. -/
def samplePool2 : TexturePool :=
  run initPool [Op.upload "tex" [4] true, Op.register ⟨"tex", 5, false, 1, 2, 2⟩,
    Op.register ⟨"tex", 7, false, 1, 2, 2⟩]

theorem claim7_witness :
    ((texAt (step samplePool2 (Op.detach "tex" 5)) 0).gpu_textures = [⟨7⟩] ∧
      ∀ a ∈ (texAt samplePool2 0).slots,
        lookup (step samplePool2 (Op.detach "tex" 5)) a = some 7) ∧
    ((texAt (step samplePool2 (Op.detach "tex" 7)) 0).gpu_textures = [⟨5⟩] ∧
      ∀ a ∈ (texAt samplePool2 0).slots,
        lookup (step samplePool2 (Op.detach "tex" 7)) a = some 5) ∧
    ((texAt (step (step samplePool2 (Op.detach "tex" 5)) (Op.detach "tex" 7))
        0).gpu_textures = [] ∧
      ∀ a ∈ (texAt samplePool2 0).slots,
        lookup (step (step samplePool2 (Op.detach "tex" 5)) (Op.detach "tex" 7)) a =
          some placeholderId) ∧
    step (step samplePool2 (Op.detach "tex" 5)) (Op.detach "tex" 7) =
      step (step samplePool2 (Op.detach "tex" 7)) (Op.detach "tex" 5) :=
  claim7_unload_order_independence samplePool2
    ⟨[Op.upload "tex" [4] true, Op.register ⟨"tex", 5, false, 1, 2, 2⟩,
      Op.register ⟨"tex", 7, false, 1, 2, 2⟩], rfl⟩
    "tex" 5 7 0 (by decide) (by decide)

end TexPool
